import Mathlib

/-!
Verification of the procedural world-generation and grid-pathfinding core of
NAVGame.cpp: a shallow embedding of the grid data model, the weighted traversal
graph, the A* search with its live-obstacle cost override, path reconstruction,
entity generation and the level-config table, together with theorems checking
the specification's claims against this embedding.

Modelling conventions:
* `float`/`double` quantities are embedded as exact rationals (`ℚ`); the IEEE
  value `infinity` returned by `Graph::cost` for a missing edge is modelled by
  `⊤` in `WithTop ℚ`, whose order (`⊤ < x` false, `x < ⊤` for finite `x`)
  matches IEEE comparisons on `inf` in the code paths exercised here.  The
  rational idealization carries no rounding and no bounded range; where a
  claim's truth depends on `float` rounding or saturation rather than on
  exact values, that divergence is stated rather than papered over.
* C++ `std::unordered_map` tables are embedded as association lists where an
  insertion conses a new entry at the head and lookup returns the newest entry,
  which realises overwrite semantics.
* The `std::priority_queue` with a greater-than comparator pops some entry of
  minimal priority; which of several equal-priority entries is popped is
  implementation defined in C++, and the embedding fixes one refinement of that
  behaviour (the earliest-pushed minimal entry).  No theorem below depends on
  the tie-breaking choice beyond minimality.
* Unbounded loops (`while (true)` rejection sampling, the A* frontier loop) are
  embedded with an explicit fuel parameter; `none` means the fuel ran out (or
  the C++ ran into undefined behaviour / a thrown exception, each such point is
  commented at the spot where it is modelled).
* The process-wide random generator is embedded as an explicit oracle
  (`GenRand`) whose well-formedness (`GenRand.WF`) states exactly the contract
  of `std::shuffle` (a permutation) and `rand_int(0, n-1)` (a value `< n`).
-/

/-- Grid coordinates, `std::pair<int, int>` (`using GridPos = ...`). -/
abbrev GridPos := ℤ × ℤ

/-- Costs as computed by the search: finite rationals or the `infinity`
returned by `Graph::cost` for a missing edge.  This is the exact-rational
idealization of the program's `float` arithmetic: it is exact on the values
the concrete runs below exercise, but unlike `float` it has neither rounding
nor a bounded range, so statements whose truth hinges on `float` saturation
(for example the fate of unboundedly descending cost updates) cannot be
settled over it. -/
abbrev Cost := WithTop ℚ

/-- `ENEMY_ATTACK` (NAVGame.cpp line 31). -/
def ENEMY_ATTACK : ℤ := 10

/-- `OBSTACLE_HEALTH` (line 26). -/
def OBSTACLE_HEALTH : ℤ := 20

/-- The fields of `struct Obstacle` relevant to the core (lines 174-193); the
pixel rectangle is derived rendering data and is represented by the grid
coordinates `gx`, `gy` that determine it. -/
structure Obstacle where
  gx : ℤ
  gy : ℤ
  type : String
  health : ℤ
  is_main_block : Bool
  nonblocking : Bool
deriving DecidableEq, Repr

/-- The constructor `Obstacle(gx, gy, t, hp = 0)` (line 182): `is_main_block`
and `nonblocking` are default-initialised to `false`. -/
def Obstacle.make (gx gy : ℤ) (t : String) (hp : ℤ := 0) : Obstacle :=
  { gx := gx, gy := gy, type := t, health := hp,
    is_main_block := false, nonblocking := false }

/-- The fields of `struct Item` relevant to the core (lines 195-208); radius,
center and rect are derived rendering data determined by `x`, `y`. -/
structure Item where
  x : ℤ
  y : ℤ
  is_main : Bool
deriving DecidableEq, Repr

/-- The constructor `Item(gx, gy, main_item = false)` (line 203). -/
def Item.make (gx gy : ℤ) (main_item : Bool := false) : Item :=
  { x := gx, y := gy, is_main := main_item }

/-- Association-list lookup with newest-entry-wins semantics; embeds reads of
`std::unordered_map` tables that are written by consing new entries. -/
def alist.find {β : Type} (l : List (GridPos × β)) (p : GridPos) : Option β :=
  (l.find? (fun e => decide (e.1 = p))).map (fun e => e.2)

/-- `struct Graph` (lines 146-172): `edges` is kept as the list of ordered
pairs in insertion order (so `neighbors a` is the per-key `push_back` order),
and `weights` as an association list keyed by `edge_key` with the newest entry
first (so lookup realises `operator[]` overwrite semantics). -/
structure Graph where
  adj : List (GridPos × GridPos)
  weights : List (ℤ × ℚ)
deriving DecidableEq, Repr

/-- `Graph::edge_key` (lines 150-155).  In the C++ code each coordinate is
masked to its low 16 bits and the four fields are packed into disjoint bit
ranges of a 64-bit integer; for non-negative masked fields the shifts and
bitwise-ors are exactly this arithmetic sum.  (Packing a field at bit 48 can
overflow the signed 64-bit result; since the code only ever compares keys for
equality, and two's-complement wrapping is injective on 64-bit values, the
unwrapped sum has the same equality relation as the wrapped C++ key.) -/
def Graph.edge_key (a b : GridPos) : ℤ :=
  (a.1 % 65536) * 2 ^ 48 + (a.2 % 65536) * 2 ^ 32 + (b.1 % 65536) * 2 ^ 16 + (b.2 % 65536)

/-- `Graph::add_edge` (lines 157-160). -/
def Graph.add_edge (g : Graph) (a b : GridPos) (w : ℚ) : Graph :=
  { adj := g.adj ++ [(a, b)], weights := (Graph.edge_key a b, w) :: g.weights }

/-- `Graph::neighbors` (lines 162-166). -/
def Graph.neighbors (g : Graph) (node : GridPos) : List GridPos :=
  (g.adj.filter (fun e => decide (e.1 = node))).map (fun e => e.2)

/-- `Graph::cost` (lines 168-171): the stored weight, or infinity when the key
is absent. -/
def Graph.cost (g : Graph) (a b : GridPos) : Cost :=
  match g.weights.find? (fun e => decide (e.1 = Graph.edge_key a b)) with
  | some e => (e.2 : ℚ)
  | none => ⊤

/-- `heuristic` (lines 337-339): Manhattan distance as a (here: exact) float. -/
def heuristic (a b : GridPos) : ℚ := ((|a.1 - b.1| + |a.2 - b.2| : ℤ) : ℚ)

/-- The integers `0, 1, ..., n - 1` (empty for `n ≤ 0`): the values taken by
an `int` loop counter running from `0` while `< n`. -/
def intRange (n : ℤ) : List ℤ := (List.range n.toNat).map (fun k : ℕ => (k : ℤ))

/-- `is_not_edge` (lines 378-380). -/
def is_not_edge (pos : GridPos) (grid_size : ℤ) : Prop :=
  pos.1 ≥ 1 ∧ pos.1 < grid_size - 1 ∧ pos.2 ≥ 1 ∧ pos.2 < grid_size - 1

instance (pos : GridPos) (n : ℤ) : Decidable (is_not_edge pos n) := by
  unfold is_not_edge; infer_instance

/-- The mutable state of `a_star_search` (lines 340-376): the frontier
priority queue and the two result maps. -/
structure AState where
  frontier : List (Cost × GridPos)
  came_from : List (GridPos × GridPos)
  cost_so_far : List (GridPos × Cost)
deriving DecidableEq, Repr

/-- Pop an entry of minimal priority, returning it and the remaining entries.
`std::priority_queue` with the greater-than comparator `Cmp` pops a minimal
entry; among equal priorities the embedding takes the earliest-pushed one
(the C++ choice is implementation defined, and no theorem depends on it). -/
def popMin : List (Cost × GridPos) → Option ((Cost × GridPos) × List (Cost × GridPos))
  | [] => none
  | e :: rest =>
    match popMin rest with
    | none => some (e, [])
    | some (m, rest') => if e.1 ≤ m.1 then some (e, rest) else some (m, e :: rest')

/-- The relaxation guard and writes of lines 367-372: if the neighbor has no
recorded cost, or the candidate cost is strictly smaller, record the cost,
push the neighbor with priority `new_cost + heuristic(goal, neighbor)` and
record the predecessor. -/
def astarUpdate (goal current : GridPos) (st : AState) (neighbor : GridPos)
    (new_cost : Cost) : AState :=
  if (alist.find st.cost_so_far neighbor).elim true (fun old => decide (new_cost < old)) then
    { frontier := st.frontier ++ [(new_cost + (heuristic goal neighbor : ℚ), neighbor)],
      came_from := (neighbor, current) :: st.came_from,
      cost_so_far := (neighbor, new_cost) :: st.cost_so_far }
  else st

/-- The body of the neighbor loop (lines 357-372): compute the static
candidate cost, then apply the live-obstacle override — skip an Indestructible
neighbor, recharge a Destructible one at
`cost_so_far[current] + 1.0 + ceil(health / ENEMY_ATTACK) * 0.1` — and relax.
`cost_so_far[current]` is read with default `0` as `operator[]` would
value-initialise; the loop invariant keeps every popped node recorded, so the
default is never exercised on reachable states. -/
def astarRelax (g : Graph) (obstacles : GridPos → Option Obstacle) (goal current : GridPos)
    (st : AState) (neighbor : GridPos) : AState :=
  let csfCur : Cost := (alist.find st.cost_so_far current).getD 0
  let new_cost : Cost := csfCur + g.cost current neighbor
  match obstacles neighbor with
  | some ob =>
    if ob.type = "Indestructible" then st
    else
      astarUpdate goal current st neighbor
        (if ob.type = "Destructible" then
          csfCur + ((1 : ℚ) : Cost) + ((⌈(ob.health : ℚ) / (ENEMY_ATTACK : ℚ)⌉ : ℚ) * (1 / 10) : ℚ)
        else new_cost)
  | none => astarUpdate goal current st neighbor new_cost

/-- The frontier loop of `a_star_search` (lines 353-374), with explicit fuel:
pop a minimal entry, stop when it is the goal, otherwise relax every listed
neighbor of the popped cell in order. -/
def astarLoop (g : Graph) (obstacles : GridPos → Option Obstacle) (goal : GridPos) :
    AState → ℕ → Option AState
  | _, 0 => none
  | st, fuel + 1 =>
    match popMin st.frontier with
    | none => some st
    | some ((_, current), rest) =>
      if current = goal then some { st with frontier := rest }
      else
        astarLoop g obstacles goal
          ((g.neighbors current).foldl
            (astarRelax g obstacles goal current) { st with frontier := rest }) fuel

/-- `a_star_search` (lines 340-376): seed the frontier with `(0, start)`, the
predecessor map with `start ↦ start` and the cost map with `start ↦ 0`, run
the loop, and return the two maps. -/
def a_star_search (g : Graph) (start goal : GridPos)
    (obstacles : GridPos → Option Obstacle) (fuel : ℕ) :
    Option (List (GridPos × GridPos) × List (GridPos × Cost)) :=
  (astarLoop g obstacles goal
      { frontier := [((0 : ℚ), start)],
        came_from := [(start, start)],
        cost_so_far := [(start, (0 : ℚ))] } fuel).map
    (fun st => (st.came_from, st.cost_so_far))

/-- The walk of `reconstruct_path` (lines 391-395): follow predecessors until
`start`, collecting cells in pop order; `none` embeds the unbounded C++ loop
not terminating (a predecessor cycle) or `came_from.at` throwing. -/
def reconstructAux (cf : List (GridPos × GridPos)) (start : GridPos) :
    ℕ → GridPos → List GridPos → Option (List GridPos)
  | 0, _, _ => none
  | fuel + 1, current, path =>
    if current = start then some ((path ++ [start]).reverse)
    else
      match alist.find cf current with
      | none => none
      | some prev => reconstructAux cf start fuel prev (path ++ [current])

/-- `reconstruct_path` (lines 382-399): if the goal was never recorded return
the single-element path `[start]`, otherwise walk the predecessor chain and
reverse it.  The walk visits pairwise-distinct recorded cells, so
`cf.length + 1` steps always suffice when the chain is well founded; on a
cyclic chain (where the C++ loops forever) the result is `none`. -/
def reconstruct_path (cf : List (GridPos × GridPos)) (start goal : GridPos) :
    Option (List GridPos) :=
  match alist.find cf goal with
  | none => some [start]
  | some _ => reconstructAux cf start (cf.length + 1) goal []

/-- The dynamic per-query step-cost model that §4.3 of the spec describes for
the candidate edge `a → b`: an Indestructible neighbor is skipped (`none`), a
Destructible one with health `h` costs `1.0 + ceil(h / ENEMY_ATTACK) * 0.1`,
and otherwise the graph's static edge weight is used. -/
def dynamicStepCost (g : Graph) (obstacles : GridPos → Option Obstacle)
    (a b : GridPos) : Option Cost :=
  match obstacles b with
  | some ob =>
    if ob.type = "Indestructible" then none
    else if ob.type = "Destructible" then
      some ((1 + (⌈(ob.health : ℚ) / (ENEMY_ATTACK : ℚ)⌉ : ℚ) * (1 / 10) : ℚ) : Cost)
    else some (g.cost a b)
  | none => some (g.cost a b)

/-- Walks along listed graph edges whose dynamic step cost is not skipped,
together with their accumulated dynamic cost.  `IsDynPath g obstacles a z p c`
says `p` runs from `a` to `z` and costs `c` under the per-query cost model. -/
inductive IsDynPath (g : Graph) (obstacles : GridPos → Option Obstacle) :
    GridPos → GridPos → List GridPos → Cost → Prop
  | single (v : GridPos) : IsDynPath g obstacles v v [v] 0
  | cons {a b z : GridPos} {rest : List GridPos} {w c : Cost} :
      b ∈ g.neighbors a → dynamicStepCost g obstacles a b = some w →
      IsDynPath g obstacles b z (b :: rest) c →
      IsDynPath g obstacles a z (a :: b :: rest) (w + c)

/-- The test `it != obstacles.end() && it->second.type == t` used throughout
`build_graph` (lines 531, 537, 539). -/
def hasObstacleType (obstacles : GridPos → Option Obstacle) (p : GridPos)
    (t : String) : Bool :=
  match obstacles p with
  | some ob => decide (ob.type = t)
  | none => false

/-- The direction offsets `dirs` of line 532. -/
def dirList : List (ℤ × ℤ) := [(-1, 0), (1, 0), (0, -1), (0, 1)]

/-- The `add_edge` calls made for one source cell `(x, y)` of `build_graph`
(lines 529-541): nothing for an Indestructible cell, otherwise one edge per
in-bounds non-Indestructible 4-neighbor, of weight 10 when the destination is
Destructible and 1 otherwise. -/
def cellEdges (grid_size : ℤ) (obstacles : GridPos → Option Obstacle) (x y : ℤ) :
    List (GridPos × GridPos × ℚ) :=
  if hasObstacleType obstacles (x, y) "Indestructible" then []
  else
    dirList.filterMap (fun d =>
      let neighbor : GridPos := (x + d.1, y + d.2)
      if neighbor.1 < 0 ∨ neighbor.2 < 0 ∨ neighbor.1 ≥ grid_size ∨ neighbor.2 ≥ grid_size
      then none
      else if hasObstacleType obstacles neighbor "Indestructible" then none
      else if hasObstacleType obstacles neighbor "Destructible" then
        some ((x, y), neighbor, (10 : ℚ))
      else some ((x, y), neighbor, (1 : ℚ)))

/-- `build_graph` (lines 525-545), as the list of `add_edge` calls it makes,
in loop order (`x` outer, `y` inner). -/
def buildEdges (grid_size : ℤ) (obstacles : GridPos → Option Obstacle) :
    List (GridPos × GridPos × ℚ) :=
  (intRange grid_size).flatMap (fun x =>
    (intRange grid_size).flatMap (fun y =>
      cellEdges grid_size obstacles x y))

/-- `build_graph` itself: fold the `add_edge` calls over the empty graph. -/
def build_graph (grid_size : ℤ) (obstacles : GridPos → Option Obstacle) : Graph :=
  (buildEdges grid_size obstacles).foldl
    (fun g e => g.add_edge e.1 e.2.1 e.2.2) { adj := [], weights := [] }

/-- The random choices consumed by `generate_game_entities`, as an explicit
oracle for the process-wide `rng`: one shuffle per rejection-sampling attempt
in `pick_valid_positions`, the `rand_int(0, n-1)` pick of the goal cell, and
the shuffles of the obstacle and item candidate lists. -/
structure GenRand where
  pickShuffle : ℕ → List GridPos → List GridPos
  goalPick : ℕ → ℕ
  restShuffle : List GridPos → List GridPos
  itemShuffle : List GridPos → List GridPos

/-- The contract of the random primitives: `std::shuffle` permutes its input
and `rand_int(0, n - 1)` returns a value below `n`. -/
def GenRand.WF (r : GenRand) : Prop :=
  (∀ i l, (r.pickShuffle i l).Perm l) ∧
  (∀ n, 0 < n → r.goalPick n < n) ∧
  (∀ l, (r.restShuffle l).Perm l) ∧
  (∀ l, (r.itemShuffle l).Perm l)

/-- The oracle that leaves every list unshuffled and always picks index 0;
well formed, and convenient for concrete executions. -/
def idRand : GenRand :=
  { pickShuffle := fun _ l => l, goalPick := fun _ => 0,
    restShuffle := fun l => l, itemShuffle := fun l => l }

/-- `std::vector::resize(n)`: truncate, or pad with value-initialised elements
(`(0, 0)` for `GridPos`). -/
def listResize (l : List GridPos) (n : ℕ) : List GridPos :=
  l.take n ++ List.replicate (n - l.length) ((0 : ℤ), (0 : ℤ))

/-- One attempt of the `while (true)` loop in `pick_valid_positions`
(lines 448-467): shuffle a copy of `all_positions`, resize it to `count + 1`,
split off the player position and the enemy list.  `none` embeds undefined
behaviour: `resize(count + 1)` with `count + 1 < 0` wraps to an astronomical
size (allocation failure), and `picks[0]` on an empty vector is out of
bounds. -/
def pickBatch (all_positions : List GridPos) (r : GenRand) (count : ℤ) (i : ℕ) :
    Option (GridPos × List GridPos) :=
  if count + 1 < 0 then none
  else
    match listResize (r.pickShuffle i all_positions) (count + 1).toNat with
    | [] => none
    | player_pos :: enemies => some (player_pos, enemies)

/-- The acceptance test of lines 457-463: every enemy is at Manhattan distance
at least `min_distance` from the player (the code rejects when
`abs(dx) + abs(dy) < min_distance` for some enemy). -/
def batchOk (min_distance : ℤ) (player_pos : GridPos) (enemies : List GridPos) : Bool :=
  enemies.all (fun e =>
    !decide (|player_pos.1 - e.1| + |player_pos.2 - e.2| < min_distance))

/-- The rejection-sampling loop of `pick_valid_positions` (lines 448-467),
with fuel: draw batch `i`, accept it when every enemy is far enough from the
player, otherwise resample the entire batch. -/
def pickLoop (all_positions : List GridPos) (r : GenRand) (min_distance count : ℤ) :
    ℕ → ℕ → Option (GridPos × List GridPos)
  | _, 0 => none
  | i, fuel + 1 =>
    match pickBatch all_positions r count i with
    | none => none
    | some (player_pos, enemies) =>
      if batchOk min_distance player_pos enemies then some (player_pos, enemies)
      else pickLoop all_positions r min_distance count (i + 1) fuel

/-- The cell enumeration of lines 435-441: all grid positions in loop order
(`x` outer, `y` inner). -/
def allPositions (grid_size : ℤ) : List GridPos :=
  (intRange grid_size).flatMap (fun x =>
    (intRange grid_size).map (fun y => (x, y)))

/-- The four reserved corners inserted into `forbidden` (lines 442-446). -/
def cornerList (grid_size : ℤ) : List GridPos :=
  [(0, 0), (0, grid_size - 1), (grid_size - 1, 0), (grid_size - 1, grid_size - 1)]

/-- The goal-cell candidates of lines 473-478: cells that are not forbidden
(corners, player, enemies) and not on the outermost ring. -/
def mainCandidates (grid_size : ℤ) (player_pos : GridPos)
    (enemy_pos_list : List GridPos) : List GridPos :=
  (allPositions grid_size).filter (fun p =>
    decide (p ∉ player_pos :: enemy_pos_list ++ cornerList grid_size) &&
      decide (is_not_edge p grid_size))

/-- The remaining obstacle candidates of lines 486-489: cells not forbidden
after the goal cell was claimed. -/
def restCandidates (grid_size : ℤ) (player_pos : GridPos)
    (enemy_pos_list : List GridPos) (main_item_pos : GridPos) : List GridPos :=
  (allPositions grid_size).filter (fun p =>
    decide (p ∉ main_item_pos :: player_pos :: enemy_pos_list ++ cornerList grid_size))

/-- The item candidates of lines 506-509: cells still free after obstacle
placement. -/
def itemCandidates (grid_size : ℤ) (player_pos : GridPos)
    (enemy_pos_list : List GridPos) (main_item_pos : GridPos)
    (rest : List GridPos) : List GridPos :=
  (allPositions grid_size).filter (fun p =>
    decide (p ∉ rest ++ main_item_pos :: player_pos :: enemy_pos_list ++ cornerList grid_size))

/-- `generate_game_entities` (lines 433-523).  Returns
`(obstacles, items, player_pos, enemy_pos_list, main_item_list)`; `none`
embeds non-termination of the rejection sampling (fuel) and the undefined or
throwing corner cases, each marked below.  The growing `forbidden` set of the
source (corners, then player and enemies, then the goal cell, then the placed
obstacles) appears here as the filters of `mainCandidates`, `restCandidates`
and `itemCandidates`. -/
def generate_game_entities (grid_size obstacle_count item_count enemy_count
    main_block_hp : ℤ) (r : GenRand) (fuel : ℕ) :
    Option (List (GridPos × Obstacle) × List Item × GridPos × List GridPos ×
      List GridPos) :=
  match pickLoop (allPositions grid_size) r 5 enemy_count 0 fuel with
  | none => none
  | some (player_pos, enemy_pos_list) =>
    -- main_item_candidates[rand_int(0, size - 1)] with size = 0 is undefined
    -- behaviour (rand_int on an empty range, then out-of-bounds indexing)
    if (mainCandidates grid_size player_pos enemy_pos_list).isEmpty then none
    else
      let main_item_pos :=
        (mainCandidates grid_size player_pos enemy_pos_list).getD
          (r.goalPick (mainCandidates grid_size player_pos enemy_pos_list).length) (0, 0)
      let main_block : Obstacle :=
        { Obstacle.make main_item_pos.1 main_item_pos.2 "Destructible" main_block_hp
          with is_main_block := true }
      let rest_count : ℤ :=
        min (max (obstacle_count - 1) 0)
          ((restCandidates grid_size player_pos enemy_pos_list main_item_pos).length : ℤ)
      let rest :=
        (r.restShuffle (restCandidates grid_size player_pos enemy_pos_list main_item_pos)).take
          rest_count.toNat
      -- static_cast<int>(rest_count * DESTRUCTIBLE_RATIO) with ratio 0.3f,
      -- modelled as the exact truncation of rest_count * 3 / 10
      let destructible_count : ℤ := ⌊(rest_count * 3 : ℚ) / 10⌋
      let obstacles : List (GridPos × Obstacle) :=
        (main_item_pos, main_block) ::
          rest.enum.map (fun e =>
            if (e.1 : ℤ) < destructible_count then
              (e.2, Obstacle.make e.2.1 e.2.2 "Destructible" OBSTACLE_HEALTH)
            else
              (e.2, Obstacle.make e.2.1 e.2.2 "Indestructible"))
      let ic : ℤ :=
        min (max item_count 1)
          ((itemCandidates grid_size player_pos enemy_pos_list main_item_pos rest).length : ℤ)
      -- item_candidates.resize(static_cast<std::size_t>(item_count - 1)):
      -- when the clamped count is 0 the argument wraps to 2^64 - 1 and the
      -- resize throws std::length_error / std::bad_alloc (a crash)
      if ic - 1 < 0 then none
      else
        let chosen :=
          (r.itemShuffle
            (itemCandidates grid_size player_pos enemy_pos_list main_item_pos rest)).take
            (ic - 1).toNat
        let items : List Item :=
          chosen.map (fun p => Item.make p.1 p.2 false) ++
            [Item.make main_item_pos.1 main_item_pos.2 true]
        some (obstacles, items, player_pos, enemy_pos_list, [main_item_pos])

/-- `struct LevelConfig` (lines 401-408). -/
structure LevelConfig where
  obstacle_count : ℤ
  item_count : ℤ
  enemy_count : ℤ
  block_hp : ℤ
  enemy_types : List String
  reward : String
deriving DecidableEq, Repr, Inhabited

/-- `CARD_POOL` (lines 410-412). -/
def CARD_POOL : List String :=
  ["enemy_fast", "enemy_strong", "enemy_tank", "enemy_spitter", "enemy_leech"]

/-- `BASE_LEVELS` (lines 414-417). -/
def BASE_LEVELS : List LevelConfig :=
  [{ obstacle_count := 15, item_count := 3, enemy_count := 1, block_hp := 10,
     enemy_types := ["basic"], reward := "enemy_fast" },
   { obstacle_count := 18, item_count := 4, enemy_count := 2, block_hp := 15,
     enemy_types := ["basic", "strong"], reward := "enemy_strong" }]

/-- `get_level_config` (lines 419-431).  `rewardPick` is the oracle for
`rand_int(0, CARD_POOL.size() - 1)` (its callers supply a value below 5).
`static_cast<int>(10 * std::pow(1.2, level - 2 + 1))` is modelled as the
floor of the exact rational `10 * (6/5)^(level - 1)`: the value is positive,
so truncation toward zero is the floor, and the `double` truncation agrees
with the exact floor at every level whose value fits in `int`.  Casting a
`double` above `INT_MAX = 2147483647` to `int` — which happens from level
107 on — is undefined behaviour, modelled as `none`; a negative level
indexes `BASE_LEVELS` out of bounds (undefined behaviour), also `none`. -/
def get_level_config (level : ℤ) (rewardPick : ℕ) : Option LevelConfig :=
  if level < 0 then none
  else if level < (BASE_LEVELS.length : ℤ) then some (BASE_LEVELS.getD level.toNat default)
  else if 2147483647 <
      ⌊(10 : ℚ) * (6 / 5 : ℚ) ^ (level - (BASE_LEVELS.length : ℤ) + 1).toNat⌋ then none
  else
    some
      { obstacle_count := 20 + level,
        item_count := 5,
        enemy_count := min 5 (1 + level / 3),
        block_hp := ⌊(10 : ℚ) * (6 / 5 : ℚ) ^ (level - (BASE_LEVELS.length : ℤ) + 1).toNat⌋,
        enemy_types := ["basic", "strong", "fire"],
        reward := CARD_POOL.getD rewardPick "enemy_fast" }

/-! Concrete instances used for counterexamples and witnesses. -/

/-- The empty obstacle map. -/
def obstNone : GridPos → Option Obstacle := fun _ => none

/-- A three-node graph on which the Manhattan heuristic is inadmissible: a
direct edge `(0,0) → (1,0)` of weight 5 next to a two-step route through
`(7,0)` of total weight 2. -/
def cexAstarGraph : Graph :=
  (((Graph.mk [] []).add_edge (0, 0) (1, 0) 5).add_edge (0, 0) (7, 0) 1).add_edge
    (7, 0) (1, 0) 1

/-- A single unit-weight edge `(0,0) → (1,0)`. -/
def witAstarGraph : Graph := (Graph.mk [] []).add_edge (0, 0) (1, 0) 1

/-- The two-cell graph `(0,0) ↔ (1,0)` with unit weights. -/
def twoCycleGraph : Graph :=
  ((Graph.mk [] []).add_edge (0, 0) (1, 0) 1).add_edge (1, 0) (0, 0) 1

/-- A single Destructible obstacle at `(65536, 1)`, whose cell collides with
`(0, 1)` under the 16-bit packing of `Graph::edge_key`. -/
def collideObst : GridPos → Option Obstacle := fun p =>
  if p = ((65536 : ℤ), (1 : ℤ)) then
    some (Obstacle.make 65536 1 "Destructible" OBSTACLE_HEALTH)
  else none

/-- An oracle whose pick-shuffle moves `(0,0)` and `(7,7)` to the front (a
permutation), so that on an 8×8 grid the player lands on `(0,0)` and a single
enemy on `(7,7)`, at Manhattan distance 14. -/
def farRand : GenRand :=
  { pickShuffle := fun _ l =>
      l.filter (fun p => decide (p = ((0 : ℤ), (0 : ℤ))) || decide (p = ((7 : ℤ), (7 : ℤ)))) ++
        l.filter (fun p =>
          !(decide (p = ((0 : ℤ), (0 : ℤ))) || decide (p = ((7 : ℤ), (7 : ℤ))))),
    goalPick := fun _ => 0,
    restShuffle := fun l => l,
    itemShuffle := fun l => l }

/-- Decidable equality for the result quintuple of `generate_game_entities`
(provided explicitly: the derived search exceeds the default instance-size
limit). -/
instance genResultDecEq :
    DecidableEq (List (GridPos × Obstacle) × List Item × GridPos × List GridPos ×
      List GridPos) := by
  haveI h1 : DecidableEq (List (GridPos × Obstacle)) := inferInstance
  haveI h2 : DecidableEq (List Item × GridPos × List GridPos × List GridPos) := inferInstance
  exact inferInstance

/-- A 2×2 obstacle layout with one Destructible and one Indestructible cell. -/
def smallObst : GridPos → Option Obstacle := fun p =>
  if p = ((1 : ℤ), (0 : ℤ)) then some (Obstacle.make 1 0 "Destructible" 20)
  else if p = ((1 : ℤ), (1 : ℤ)) then some (Obstacle.make 1 1 "Indestructible")
  else none

/-- The loop invariant of `a_star_search` used to verify claim C2 and the
termination of the embedded frontier loop.
`EO` and `ER` are lists of already-expanded cells: `relaxed` and
`expanded_opt` hold of the cells in `ER`, while `open_or_closed` sends every
recorded cell either into `EO` or to a live frontier entry; between loop
iterations the two coincide, and during the relaxation fold `EO` is
`current :: ER` (the popped cell is withdrawn from the frontier before its
neighbors are relaxed). -/
structure AInv (g : Graph) (obstacles : GridPos → Option Obstacle)
    (goal start : GridPos) (EO ER : List GridPos) (st : AState) : Prop where
  start0 : alist.find st.cost_so_far start = some ((0 : ℚ) : Cost)
  nonneg : ∀ v c, alist.find st.cost_so_far v = some c → ∃ q : ℚ, c = (q : Cost) ∧ 0 ≤ q
  exact_path : ∀ v c, alist.find st.cost_so_far v = some c →
    ∃ p, IsDynPath g obstacles start v p c
  cf_start : alist.find st.came_from start = some start
  cf_edge : ∀ v u, alist.find st.came_from v = some u → v ≠ start →
    ∃ w cu cv, v ∈ g.neighbors u ∧ dynamicStepCost g obstacles u v = some w ∧
      alist.find st.cost_so_far v = some cv ∧ alist.find st.cost_so_far u = some cu ∧
      cu + w ≤ cv ∧ cu < cv
  dom_sync : ∀ v, (alist.find st.came_from v).isSome = (alist.find st.cost_so_far v).isSome
  frontier_sound : ∀ pri v, (pri, v) ∈ st.frontier →
    ∃ cv, alist.find st.cost_so_far v = some cv ∧ cv ≤ pri ∧
      (cv + (heuristic goal v : Cost) ≤ pri ∨ (v = start ∧ pri = ((0 : ℚ) : Cost)))
  key_dom : ∀ v, (alist.find st.cost_so_far v).isSome = true →
    v ∈ start :: g.adj.map Prod.snd
  relaxed : ∀ u ∈ ER, ∃ cu, alist.find st.cost_so_far u = some cu ∧
    ∀ n ∈ g.neighbors u, ∀ w, dynamicStepCost g obstacles u n = some w →
      ∃ cn, alist.find st.cost_so_far n = some cn ∧ cn ≤ cu + w
  expanded_opt : ∀ u ∈ ER, ∀ cu, alist.find st.cost_so_far u = some cu →
    ∀ p c, IsDynPath g obstacles start u p c → cu ≤ c
  open_or_closed : ∀ v cv, alist.find st.cost_so_far v = some cv →
    v ∈ EO ∨ ∃ pri, (pri, v) ∈ st.frontier ∧ pri ≤ cv + (heuristic goal v : Cost)

/-! Association-list and priority-queue lemmas. -/

theorem alist_find_nil {β : Type} (p : GridPos) :
    alist.find ([] : List (GridPos × β)) p = none := rfl

theorem alist_find_cons {β : Type} (q : GridPos) (v : β) (l : List (GridPos × β)) (p : GridPos) :
    alist.find ((q, v) :: l) p = if q = p then some v else alist.find l p := by
  by_cases h : q = p <;> simp [alist.find, List.find?_cons, h]

theorem alist_find_cons_self {β : Type} (q : GridPos) (v : β) (l : List (GridPos × β)) :
    alist.find ((q, v) :: l) q = some v := by
  simp [alist_find_cons]

theorem alist_find_cons_ne {β : Type} (q : GridPos) (v : β) (l : List (GridPos × β)) (p : GridPos)
    (h : q ≠ p) : alist.find ((q, v) :: l) p = alist.find l p := by
  simp [alist_find_cons, h]

theorem alist_find_isSome_mem {β : Type} {l : List (GridPos × β)} {p : GridPos} {v : β}
    (h : alist.find l p = some v) : (p, v) ∈ l := by
  induction l with
  | nil => simp [alist.find] at h
  | cons e rest ih =>
    rcases e with ⟨q, w⟩
    rw [alist_find_cons] at h
    by_cases hq : q = p
    · rw [if_pos hq] at h
      obtain rfl : w = v := Option.some.inj h
      subst hq
      exact List.mem_cons_self _ _
    · rw [if_neg hq] at h
      exact List.mem_cons_of_mem _ (ih h)

theorem popMin_eq_none {l : List (Cost × GridPos)} : popMin l = none ↔ l = [] := by
  cases l with
  | nil => simp [popMin]
  | cons e rest =>
    simp only [popMin]
    constructor
    · intro h
      cases hr : popMin rest with
      | none => rw [hr] at h; exact absurd h (by simp)
      | some mr =>
        rcases mr with ⟨m, rest'⟩
        rw [hr] at h
        dsimp only at h
        by_cases hle : e.1 ≤ m.1
        · rw [if_pos hle] at h; exact absurd h (by simp)
        · rw [if_neg hle] at h; exact absurd h (by simp)
    · intro h; exact absurd h (List.cons_ne_nil _ _)

theorem popMin_perm {l : List (Cost × GridPos)} {m : Cost × GridPos}
    {r : List (Cost × GridPos)} (h : popMin l = some (m, r)) : l.Perm (m :: r) := by
  induction l generalizing m r with
  | nil => simp [popMin] at h
  | cons e rest ih =>
    simp only [popMin] at h
    cases hr : popMin rest with
    | none =>
      rw [hr] at h
      dsimp only at h
      obtain ⟨h1, h2⟩ := Prod.mk.injEq .. ▸ Option.some.inj h
      have : rest = [] := popMin_eq_none.mp hr
      subst this
      rw [← h1, ← h2]
    | some mr =>
      rcases mr with ⟨m', rest'⟩
      rw [hr] at h
      dsimp only at h
      by_cases hle : e.1 ≤ m'.1
      · rw [if_pos hle] at h
        obtain ⟨h1, h2⟩ := Prod.mk.injEq .. ▸ Option.some.inj h
        rw [← h1, ← h2]
      · rw [if_neg hle] at h
        obtain ⟨h1, h2⟩ := Prod.mk.injEq .. ▸ Option.some.inj h
        have hperm : (e :: rest).Perm (e :: m' :: rest') := (ih hr).cons e
        have hswap : (e :: m' :: rest').Perm (m' :: e :: rest') := List.Perm.swap _ _ _
        have := hperm.trans hswap
        rw [← h1, ← h2]
        exact this

theorem popMin_mem {l : List (Cost × GridPos)} {m : Cost × GridPos}
    {r : List (Cost × GridPos)} (h : popMin l = some (m, r)) : m ∈ l :=
  (popMin_perm h).symm.subset (List.mem_cons_self _ _)

theorem popMin_min {l : List (Cost × GridPos)} {m : Cost × GridPos}
    {r : List (Cost × GridPos)} (h : popMin l = some (m, r)) :
    ∀ e ∈ l, m.1 ≤ e.1 := by
  induction l generalizing m r with
  | nil => simp [popMin] at h
  | cons e rest ih =>
    simp only [popMin] at h
    cases hr : popMin rest with
    | none =>
      rw [hr] at h
      dsimp only at h
      obtain ⟨h1, h2⟩ := Prod.mk.injEq .. ▸ Option.some.inj h
      have : rest = [] := popMin_eq_none.mp hr
      subst this
      intro x hx
      rcases List.mem_cons.mp hx with hx | hx
      · rw [← h1, hx]
      · exact absurd hx (List.not_mem_nil x)
    | some mr =>
      rcases mr with ⟨m', rest'⟩
      rw [hr] at h
      dsimp only at h
      by_cases hle : e.1 ≤ m'.1
      · rw [if_pos hle] at h
        obtain ⟨h1, h2⟩ := Prod.mk.injEq .. ▸ Option.some.inj h
        intro x hx
        rcases List.mem_cons.mp hx with hx | hx
        · rw [← h1, hx]
        · exact le_trans (h1 ▸ hle) (ih hr x hx)
      · rw [if_neg hle] at h
        obtain ⟨h1, h2⟩ := Prod.mk.injEq .. ▸ Option.some.inj h
        intro x hx
        rcases List.mem_cons.mp hx with hx | hx
        · rw [← h1, hx]; exact le_of_not_le hle
        · exact h1 ▸ ih hr x hx

theorem mem_neighbors {g : Graph} {a b : GridPos} :
    b ∈ g.neighbors a ↔ (a, b) ∈ g.adj := by
  simp only [Graph.neighbors, List.mem_map, List.mem_filter, decide_eq_true_eq]
  constructor
  · rintro ⟨⟨a', b'⟩, ⟨hm, ha⟩, hb⟩
    dsimp only at ha hb
    subst ha; subst hb
    exact hm
  · intro h
    exact ⟨(a, b), ⟨h, rfl⟩, rfl⟩

/-! The dynamic cost override (claim C1). -/

/-- The neighbor-loop body factored through the spec's per-edge dynamic cost
model: skipping, recharging and the static fallback of lines 358-366 relax
with exactly `cost_so_far[current] + dynamicStepCost`. -/
theorem astarRelax_dyn (g : Graph) (obstacles : GridPos → Option Obstacle)
    (goal current : GridPos) (st : AState) (neighbor : GridPos) :
    astarRelax g obstacles goal current st neighbor =
      match dynamicStepCost g obstacles current neighbor with
      | none => st
      | some w =>
        astarUpdate goal current st neighbor
          ((alist.find st.cost_so_far current).getD 0 + w) := by
  unfold astarRelax dynamicStepCost
  cases hob : obstacles neighbor with
  | none => rfl
  | some ob =>
    dsimp only
    by_cases hI : ob.type = "Indestructible"
    · rw [if_pos hI, if_pos hI]
    · rw [if_neg hI, if_neg hI]
      by_cases hD : ob.type = "Destructible"
      · rw [if_pos hD, if_pos hD]
        dsimp only
        congr 1
        have hsplit :
            ((1 + (⌈(ob.health : ℚ) / (ENEMY_ATTACK : ℚ)⌉ : ℚ) * (1 / 10) : ℚ) : Cost) =
              ((1 : ℚ) : Cost) + ((⌈(ob.health : ℚ) / (ENEMY_ATTACK : ℚ)⌉ : ℚ) * (1 / 10) : ℚ) := by
          push_cast
          ring_nf
        rw [hsplit, ← add_assoc]
      · rw [if_neg hD, if_neg hD]

/-- C1: during `a_star_search`, the live obstacle map overrides the
precomputed graph for every candidate neighbor: an Indestructible neighbor is
skipped regardless of the graph, a Destructible neighbor with health `h` is
charged exactly `1.0 + ceil(h / ENEMY_ATTACK) * 0.1` on top of the current
cost, and otherwise the graph's static edge weight is used — i.e. the relax
step is relaxation by `dynamicStepCost`. -/
theorem c1_dynamic_override (g : Graph) (obstacles : GridPos → Option Obstacle)
    (goal current : GridPos) (st : AState) (neighbor : GridPos) :
    astarRelax g obstacles goal current st neighbor =
      match dynamicStepCost g obstacles current neighbor with
      | none => st
      | some w =>
        astarUpdate goal current st neighbor
          ((alist.find st.cost_so_far current).getD 0 + w) :=
  astarRelax_dyn g obstacles goal current st neighbor

/-! The no-path fallback (claim C7). -/

/-- C7: when `a_star_search` never records the goal cell (its `came_from` has
no entry for it), `reconstruct_path` on the result returns exactly the
single-element path `[start]`, without error. -/
theorem c7_no_path_fallback (g : Graph) (start goal : GridPos)
    (obstacles : GridPos → Option Obstacle) (fuel : ℕ)
    (cf : List (GridPos × GridPos)) (csf : List (GridPos × Cost))
    (_hrun : a_star_search g start goal obstacles fuel = some (cf, csf))
    (hmiss : alist.find cf goal = none) :
    reconstruct_path cf start goal = some [start] := by
  unfold reconstruct_path
  rw [hmiss]

/-- Witness for C7: on the empty graph with start `(0,0)` and goal `(5,5)` the
frontier empties without recording the goal and the fallback path is
returned. -/
theorem c7_no_path_fallback_witness :
    a_star_search (Graph.mk [] []) (0, 0) (5, 5) obstNone 3 =
        some (([(((0 : ℤ), (0 : ℤ)), ((0 : ℤ), (0 : ℤ)))] : List (GridPos × GridPos)),
          ([(((0 : ℤ), (0 : ℤ)), ((0 : ℚ) : Cost))] : List (GridPos × Cost))) ∧
      alist.find ([(((0 : ℤ), (0 : ℤ)), ((0 : ℤ), (0 : ℤ)))] : List (GridPos × GridPos))
          ((5 : ℤ), (5 : ℤ)) = none ∧
      reconstruct_path ([(((0 : ℤ), (0 : ℤ)), ((0 : ℤ), (0 : ℤ)))] : List (GridPos × GridPos))
          (0, 0) (5, 5) = some [(0, 0)] :=
  ⟨by decide, by decide,
    c7_no_path_fallback (Graph.mk [] []) (0, 0) (5, 5) obstNone 3
      ([(((0 : ℤ), (0 : ℤ)), ((0 : ℤ), (0 : ℤ)))] : List (GridPos × GridPos))
      ([(((0 : ℤ), (0 : ℤ)), ((0 : ℚ) : Cost))] : List (GridPos × Cost))
      (by decide) (by decide)⟩

/-! The level-config growth law (claim C9). -/

/-- Counterexample to C9 as stated: at level 107 the geometric hit-point
value `10 * 1.2^106` is about `2.47e9 > INT_MAX`, so the `static_cast<int>`
in `get_level_config` is undefined behaviour (on mainstream targets it
yields `INT_MIN`, a decrease) and the embedded call returns no
configuration; level 106 is the last level whose block hit points fit in
`int`.  Block hit points are therefore not returned — let alone
non-decreasing — over the claim's whole range `level ≥ 2`. -/
theorem c9_counterexample :
    get_level_config 106 0 =
      some { obstacle_count := 126, item_count := 5, enemy_count := 5,
             block_hp := 2060776223, enemy_types := ["basic", "strong", "fire"],
             reward := "enemy_fast" } ∧
    get_level_config 107 0 = none ∧
    (2147483647 : ℤ) < ⌊(10 : ℚ) * (6 / 5 : ℚ) ^ (106 : ℕ)⌋ := by
  have hlen : ((BASE_LEVELS.length : ℕ) : ℤ) = 2 := by norm_num [BASE_LEVELS]
  have hf105 : ⌊(10 : ℚ) * (6 / 5 : ℚ) ^ (105 : ℕ)⌋ = 2060776223 := by norm_num
  have hf106 : ⌊(10 : ℚ) * (6 / 5 : ℚ) ^ (106 : ℕ)⌋ = 2472931468 := by norm_num
  have he1 : ((106 : ℤ) - 2 + 1).toNat = 105 := by decide
  have he2 : ((107 : ℤ) - 2 + 1).toNat = 106 := by decide
  refine ⟨?_, ?_, by rw [hf106]; norm_num⟩
  · unfold get_level_config
    rw [if_neg (by norm_num), if_neg (by rw [hlen]; norm_num), hlen, he1, hf105,
      if_neg (by norm_num)]
    norm_num [CARD_POOL]
  · unfold get_level_config
    rw [if_neg (by norm_num), if_neg (by rw [hlen]; norm_num), hlen, he2, hf106,
      if_pos (by norm_num)]

/-- C9 (amended): whenever `get_level_config` returns a configuration at two
levels `2 ≤ l1 ≤ l2` beyond the base table — that is, whenever the `int`
cast of `10 * 1.2^(level-1)` stays in range, which holds up to level 106 —
the obstacle count is `20 + level` (non-decreasing), the block hit points
are the truncated geometric value (non-decreasing), and the enemy count
`min 5 (1 + level/3)` is capped at 5. -/
theorem c9_config_monotone (l1 l2 : ℤ) (rp1 rp2 : ℕ) (h2 : 2 ≤ l1) (h12 : l1 ≤ l2)
    (cfg1 cfg2 : LevelConfig)
    (hc1 : get_level_config l1 rp1 = some cfg1)
    (hc2 : get_level_config l2 rp2 = some cfg2) :
    cfg1.obstacle_count = 20 + l1 ∧
    cfg2.obstacle_count = 20 + l2 ∧
    cfg1.block_hp = ⌊(10 : ℚ) * (6 / 5 : ℚ) ^ (l1 - 1).toNat⌋ ∧
    cfg2.block_hp = ⌊(10 : ℚ) * (6 / 5 : ℚ) ^ (l2 - 1).toNat⌋ ∧
    cfg1.enemy_count = min 5 (1 + l1 / 3) ∧
    cfg1.enemy_count ≤ 5 ∧
    cfg1.obstacle_count ≤ cfg2.obstacle_count ∧
    cfg1.block_hp ≤ cfg2.block_hp := by
  have hlen : ((BASE_LEVELS.length : ℕ) : ℤ) = 2 := by norm_num [BASE_LEVELS]
  have e1 : l1 - (BASE_LEVELS.length : ℤ) + 1 = l1 - 1 := by rw [hlen]; ring
  have e2 : l2 - (BASE_LEVELS.length : ℤ) + 1 = l2 - 1 := by rw [hlen]; ring
  unfold get_level_config at hc1 hc2
  rw [if_neg (by omega : ¬ l1 < 0),
    if_neg (by rw [hlen]; omega : ¬ l1 < (BASE_LEVELS.length : ℤ)), e1] at hc1
  rw [if_neg (by omega : ¬ l2 < 0),
    if_neg (by rw [hlen]; omega : ¬ l2 < (BASE_LEVELS.length : ℤ)), e2] at hc2
  split at hc1
  · exact absurd hc1 (by simp)
  · split at hc2
    · exact absurd hc2 (by simp)
    · obtain rfl := Option.some.inj hc1
      obtain rfl := Option.some.inj hc2
      refine ⟨rfl, rfl, rfl, rfl, rfl, min_le_left _ _, ?_, ?_⟩
      · dsimp only
        omega
      · dsimp only
        apply Int.floor_mono
        apply mul_le_mul_of_nonneg_left _ (by norm_num : (0 : ℚ) ≤ 10)
        exact pow_le_pow_right₀ (by norm_num) (Int.toNat_le_toNat (by omega))

/-- Witness for the amended C9 theorem at levels 2 and 3. -/
theorem c9_config_monotone_witness :
    ({ obstacle_count := 22, item_count := 5, enemy_count := 1, block_hp := 12,
             enemy_types := ["basic", "strong", "fire"], reward := "enemy_fast" }
      : LevelConfig).obstacle_count = 20 + 2 ∧
    ({ obstacle_count := 23, item_count := 5, enemy_count := 2, block_hp := 14,
             enemy_types := ["basic", "strong", "fire"], reward := "enemy_fast" }
      : LevelConfig).obstacle_count = 20 + 3 ∧
    ({ obstacle_count := 22, item_count := 5, enemy_count := 1, block_hp := 12,
             enemy_types := ["basic", "strong", "fire"], reward := "enemy_fast" }
      : LevelConfig).block_hp = ⌊(10 : ℚ) * (6 / 5 : ℚ) ^ ((2 : ℤ) - 1).toNat⌋ ∧
    ({ obstacle_count := 23, item_count := 5, enemy_count := 2, block_hp := 14,
             enemy_types := ["basic", "strong", "fire"], reward := "enemy_fast" }
      : LevelConfig).block_hp = ⌊(10 : ℚ) * (6 / 5 : ℚ) ^ ((3 : ℤ) - 1).toNat⌋ ∧
    ({ obstacle_count := 22, item_count := 5, enemy_count := 1, block_hp := 12,
             enemy_types := ["basic", "strong", "fire"], reward := "enemy_fast" }
      : LevelConfig).enemy_count = min 5 (1 + 2 / 3) ∧
    ({ obstacle_count := 22, item_count := 5, enemy_count := 1, block_hp := 12,
             enemy_types := ["basic", "strong", "fire"], reward := "enemy_fast" }
      : LevelConfig).enemy_count ≤ 5 ∧
    ({ obstacle_count := 22, item_count := 5, enemy_count := 1, block_hp := 12,
             enemy_types := ["basic", "strong", "fire"], reward := "enemy_fast" }
      : LevelConfig).obstacle_count ≤
      ({ obstacle_count := 23, item_count := 5, enemy_count := 2, block_hp := 14,
             enemy_types := ["basic", "strong", "fire"], reward := "enemy_fast" }
        : LevelConfig).obstacle_count ∧
    ({ obstacle_count := 22, item_count := 5, enemy_count := 1, block_hp := 12,
             enemy_types := ["basic", "strong", "fire"], reward := "enemy_fast" }
      : LevelConfig).block_hp ≤
      ({ obstacle_count := 23, item_count := 5, enemy_count := 2, block_hp := 14,
             enemy_types := ["basic", "strong", "fire"], reward := "enemy_fast" }
        : LevelConfig).block_hp :=
  c9_config_monotone 2 3 0 0 (by norm_num) (by norm_num)
    { obstacle_count := 22, item_count := 5, enemy_count := 1, block_hp := 12,
             enemy_types := ["basic", "strong", "fire"], reward := "enemy_fast" }
    { obstacle_count := 23, item_count := 5, enemy_count := 2, block_hp := 14,
             enemy_types := ["basic", "strong", "fire"], reward := "enemy_fast" }
    (by with_unfolding_all decide) (by with_unfolding_all decide)

/-! The traversal-graph builder (claim C6). -/

theorem mem_intRange {n : ℤ} {x : ℤ} :
    x ∈ intRange n ↔ 0 ≤ x ∧ x < n := by
  unfold intRange
  rw [List.mem_map]
  constructor
  · rintro ⟨k, hk, hkx⟩
    rw [List.mem_range] at hk
    omega
  · rintro ⟨h0, hn⟩
    refine ⟨x.toNat, ?_, ?_⟩
    · rw [List.mem_range]
      omega
    · omega

theorem mem_cellEdges {n : ℤ} {obstacles : GridPos → Option Obstacle} {x y : ℤ}
    {a b : GridPos} {w : ℚ} :
    (a, b, w) ∈ cellEdges n obstacles x y ↔
      a = (x, y) ∧
      hasObstacleType obstacles a "Indestructible" = false ∧
      (b.1 - x, b.2 - y) ∈ dirList ∧
      (0 ≤ b.1 ∧ 0 ≤ b.2 ∧ b.1 < n ∧ b.2 < n) ∧
      hasObstacleType obstacles b "Indestructible" = false ∧
      w = (if hasObstacleType obstacles b "Destructible" then 10 else 1) := by
  unfold cellEdges
  by_cases hsrc : hasObstacleType obstacles (x, y) "Indestructible"
  · rw [if_pos hsrc]
    simp only [List.not_mem_nil, false_iff]
    rintro ⟨rfl, hfalse, -⟩
    rw [hsrc] at hfalse
    simp at hfalse
  · rw [if_neg hsrc]
    rw [Bool.not_eq_true] at hsrc
    simp only [List.mem_filterMap]
    constructor
    · rintro ⟨d, hd, hsome⟩
      dsimp only at hsome
      by_cases hout : x + d.1 < 0 ∨ y + d.2 < 0 ∨ x + d.1 ≥ n ∨ y + d.2 ≥ n
      · rw [if_pos hout] at hsome
        simp at hsome
      · rw [if_neg hout] at hsome
        push_neg at hout
        by_cases hind : hasObstacleType obstacles (x + d.1, y + d.2) "Indestructible"
        · rw [if_pos hind] at hsome
          simp at hsome
        · rw [if_neg hind] at hsome
          rw [Bool.not_eq_true] at hind
          have hdir : ∀ u v : ℤ, (x + u - x, y + v - y) = ((u, v) : ℤ × ℤ) := by
            intro u v
            apply Prod.ext <;> dsimp only <;> ring
          by_cases hdes : hasObstacleType obstacles (x + d.1, y + d.2) "Destructible"
          · rw [if_pos hdes] at hsome
            simp only [Option.some.injEq, Prod.mk.injEq] at hsome
            obtain ⟨ha, hb, hw⟩ := hsome
            subst ha; subst hb; subst hw
            refine ⟨rfl, hsrc, ?_, ?_, hind, ?_⟩
            · dsimp only
              rw [hdir]
              exact hd
            · dsimp only
              exact hout
            · rw [if_pos hdes]
          · rw [if_neg hdes] at hsome
            rw [Bool.not_eq_true] at hdes
            simp only [Option.some.injEq, Prod.mk.injEq] at hsome
            obtain ⟨ha, hb, hw⟩ := hsome
            subst ha; subst hb; subst hw
            refine ⟨rfl, hsrc, ?_, ?_, hind, ?_⟩
            · dsimp only
              rw [hdir]
              exact hd
            · dsimp only
              exact hout
            · rw [if_neg (by rw [hdes]; exact Bool.false_ne_true)]
    · rintro ⟨rfl, hsrcf, hdir, hbnd, hindf, hw⟩
      refine ⟨(b.1 - x, b.2 - y), hdir, ?_⟩
      dsimp only
      have hb1 : x + (b.1 - x) = b.1 := by ring
      have hb2 : y + (b.2 - y) = b.2 := by ring
      rw [hb1, hb2, Prod.mk.eta]
      rw [if_neg (by omega : ¬ (b.1 < 0 ∨ b.2 < 0 ∨ b.1 ≥ n ∨ b.2 ≥ n)),
        if_neg (by rw [hindf]; exact Bool.false_ne_true)]
      by_cases hdes : hasObstacleType obstacles b "Destructible"
      · rw [if_pos hdes]
        rw [if_pos hdes] at hw
        rw [hw]
      · rw [if_neg hdes]
        rw [if_neg hdes] at hw
        rw [hw]

theorem mem_buildEdges {n : ℤ} {obstacles : GridPos → Option Obstacle}
    {a b : GridPos} {w : ℚ} :
    (a, b, w) ∈ buildEdges n obstacles ↔
      (0 ≤ a.1 ∧ a.1 < n ∧ 0 ≤ a.2 ∧ a.2 < n) ∧
      hasObstacleType obstacles a "Indestructible" = false ∧
      (b.1 - a.1, b.2 - a.2) ∈ dirList ∧
      (0 ≤ b.1 ∧ 0 ≤ b.2 ∧ b.1 < n ∧ b.2 < n) ∧
      hasObstacleType obstacles b "Indestructible" = false ∧
      w = (if hasObstacleType obstacles b "Destructible" then 10 else 1) := by
  unfold buildEdges
  simp only [List.mem_flatMap]
  constructor
  · rintro ⟨x, hx, y, hy, hmem⟩
    rw [mem_intRange] at hx hy
    obtain ⟨ha, rest⟩ := mem_cellEdges.mp hmem
    subst ha
    exact ⟨⟨hx.1, hx.2, hy.1, hy.2⟩, rest⟩
  · rintro ⟨⟨ha1, ha2, ha3, ha4⟩, rest⟩
    refine ⟨a.1, mem_intRange.mpr ⟨ha1, ha2⟩, a.2, mem_intRange.mpr ⟨ha3, ha4⟩, ?_⟩
    refine mem_cellEdges.mpr ⟨?_, rest⟩
    exact (Prod.mk.eta).symm

theorem build_fold_adj (L : List (GridPos × GridPos × ℚ)) (g0 : Graph) :
    (L.foldl (fun g e => g.add_edge e.1 e.2.1 e.2.2) g0).adj =
      g0.adj ++ L.map (fun e => (e.1, e.2.1)) := by
  induction L generalizing g0 with
  | nil => simp
  | cons e rest ih =>
    rw [List.foldl_cons, ih, List.map_cons]
    simp [Graph.add_edge]

theorem build_fold_weights (L : List (GridPos × GridPos × ℚ)) (g0 : Graph) :
    (L.foldl (fun g e => g.add_edge e.1 e.2.1 e.2.2) g0).weights =
      (L.map (fun e => (Graph.edge_key e.1 e.2.1, e.2.2))).reverse ++ g0.weights := by
  induction L generalizing g0 with
  | nil => simp
  | cons e rest ih =>
    rw [List.foldl_cons, ih, List.map_cons, List.reverse_cons]
    simp [Graph.add_edge]

theorem build_graph_adj {n : ℤ} {obstacles : GridPos → Option Obstacle} {a b : GridPos} :
    (a, b) ∈ (build_graph n obstacles).adj ↔
      (0 ≤ a.1 ∧ a.1 < n ∧ 0 ≤ a.2 ∧ a.2 < n) ∧
      hasObstacleType obstacles a "Indestructible" = false ∧
      (b.1 - a.1, b.2 - a.2) ∈ dirList ∧
      (0 ≤ b.1 ∧ 0 ≤ b.2 ∧ b.1 < n ∧ b.2 < n) ∧
      hasObstacleType obstacles b "Indestructible" = false := by
  unfold build_graph
  rw [build_fold_adj]
  simp only [List.nil_append, List.mem_map]
  constructor
  · rintro ⟨⟨a', b', w'⟩, hmem, heq⟩
    simp only [Prod.mk.injEq] at heq
    obtain ⟨h1, h2⟩ := heq
    subst h1; subst h2
    obtain ⟨q1, q2, q3, q4, q5, -⟩ := mem_buildEdges.mp hmem
    exact ⟨q1, q2, q3, q4, q5⟩
  · rintro ⟨q1, q2, q3, q4, q5⟩
    exact ⟨(a, b, if hasObstacleType obstacles b "Destructible" then 10 else 1),
      mem_buildEdges.mpr ⟨q1, q2, q3, q4, q5, rfl⟩, rfl⟩

/-- Coordinates surviving the 16-bit mask of `edge_key` unchanged. -/
def inCoord16 (p : GridPos) : Prop :=
  0 ≤ p.1 ∧ p.1 < 65536 ∧ 0 ≤ p.2 ∧ p.2 < 65536

theorem edge_key_inj {a b a' b' : GridPos} (ha : inCoord16 a) (hb : inCoord16 b)
    (ha' : inCoord16 a') (hb' : inCoord16 b')
    (h : Graph.edge_key a b = Graph.edge_key a' b') : a = a' ∧ b = b' := by
  obtain ⟨q1, q2, q3, q4⟩ := ha
  obtain ⟨r1, r2, r3, r4⟩ := hb
  obtain ⟨s1, s2, s3, s4⟩ := ha'
  obtain ⟨t1, t2, t3, t4⟩ := hb'
  unfold Graph.edge_key at h
  rw [Int.emod_eq_of_lt q1 q2, Int.emod_eq_of_lt q3 q4, Int.emod_eq_of_lt r1 r2,
    Int.emod_eq_of_lt r3 r4, Int.emod_eq_of_lt s1 s2, Int.emod_eq_of_lt s3 s4,
    Int.emod_eq_of_lt t1 t2, Int.emod_eq_of_lt t3 t4] at h
  exact ⟨Prod.ext (by omega) (by omega), Prod.ext (by omega) (by omega)⟩

/-- For graphs built over grids of side at most `2^16`, the stored weight of a
listed edge is determined by its destination cell. -/
theorem build_graph_cost_of_adj {n : ℤ} (hn : n ≤ 65536)
    {obstacles : GridPos → Option Obstacle} {a b : GridPos}
    (hadj : (a, b) ∈ (build_graph n obstacles).adj) :
    (build_graph n obstacles).cost a b =
      (if hasObstacleType obstacles b "Destructible" then ((10 : ℚ) : Cost)
       else ((1 : ℚ) : Cost)) := by
  have hweights : (build_graph n obstacles).weights =
      ((buildEdges n obstacles).map
        (fun e => (Graph.edge_key e.1 e.2.1, e.2.2))).reverse := by
    unfold build_graph
    rw [build_fold_weights]
    simp
  have hedge : (a, b, (if hasObstacleType obstacles b "Destructible" then (10 : ℚ) else 1)) ∈
      buildEdges n obstacles := by
    unfold build_graph at hadj
    rw [build_fold_adj] at hadj
    simp only [List.nil_append, List.mem_map] at hadj
    obtain ⟨⟨a', b', w'⟩, hmem, heq⟩ := hadj
    simp only [Prod.mk.injEq] at heq
    obtain ⟨h1, h2⟩ := heq
    subst h1; subst h2
    obtain ⟨p1, p2, p3, p4, p5, p6⟩ := mem_buildEdges.mp hmem
    subst p6
    exact hmem
  unfold Graph.cost
  rw [hweights]
  cases hf : (((buildEdges n obstacles).map
      (fun e => (Graph.edge_key e.1 e.2.1, e.2.2))).reverse).find?
      (fun e => decide (e.1 = Graph.edge_key a b)) with
  | none =>
    exfalso
    rw [List.find?_eq_none] at hf
    refine hf (Graph.edge_key a b,
      (if hasObstacleType obstacles b "Destructible" then (10 : ℚ) else 1)) ?_ (by simp)
    rw [List.mem_reverse, List.mem_map]
    exact ⟨_, hedge, rfl⟩
  | some e =>
    have hpred := List.find?_some hf
    have hmem := List.mem_of_find?_eq_some hf
    rw [List.mem_reverse, List.mem_map] at hmem
    obtain ⟨⟨a', b', w'⟩, hmem', heq⟩ := hmem
    obtain ⟨p1, p2, p3, p4, p5, p6⟩ := mem_buildEdges.mp hmem'
    obtain ⟨q1, q2, q3, q4, q5, -⟩ := mem_buildEdges.mp hedge
    rw [decide_eq_true_eq] at hpred
    rw [← heq] at hpred
    dsimp only at hpred
    have hab : a' = a ∧ b' = b := by
      refine edge_key_inj ?_ ?_ ?_ ?_ hpred
      · exact ⟨p1.1, by omega, p1.2.2.1, by omega⟩
      · exact ⟨p4.1, by omega, p4.2.1, by omega⟩
      · exact ⟨q1.1, by omega, q1.2.2.1, by omega⟩
      · exact ⟨q4.1, by omega, q4.2.1, by omega⟩
    obtain ⟨rfl, rfl⟩ := hab
    rw [← heq]
    dsimp only
    rw [p6]
    by_cases hdes : hasObstacleType obstacles b' "Destructible"
    · rw [if_pos hdes, if_pos hdes]
    · rw [if_neg hdes, if_neg hdes]

/-- C6 (amended: grid side at most 2^16, where the 16-bit edge keys are
collision free): `build_graph` emits a directed edge `a → b` exactly when both
cells are in bounds, `b` is a 4-neighbor of `a`, and neither cell holds an
Indestructible obstacle — so Indestructible cells appear in no edge as source
or destination — and the stored weight of every listed edge is `10.0` exactly
when the destination holds a Destructible obstacle and `1.0` otherwise. -/
theorem c6_build_graph_sound (n : ℤ) (obstacles : GridPos → Option Obstacle)
    (a b : GridPos) (hn : n ≤ 65536) :
    ((a, b) ∈ (build_graph n obstacles).adj ↔
      ((0 ≤ a.1 ∧ a.1 < n ∧ 0 ≤ a.2 ∧ a.2 < n) ∧
       hasObstacleType obstacles a "Indestructible" = false ∧
       (b.1 - a.1, b.2 - a.2) ∈ dirList ∧
       (0 ≤ b.1 ∧ 0 ≤ b.2 ∧ b.1 < n ∧ b.2 < n) ∧
       hasObstacleType obstacles b "Indestructible" = false)) ∧
    ((a, b) ∈ (build_graph n obstacles).adj →
      (build_graph n obstacles).cost a b =
        (if hasObstacleType obstacles b "Destructible" then ((10 : ℚ) : Cost)
         else ((1 : ℚ) : Cost))) :=
  ⟨build_graph_adj, fun h => build_graph_cost_of_adj hn h⟩

/-- Witness for C6 on a 2×2 grid with one Destructible and one Indestructible
obstacle. -/
theorem c6_build_graph_sound_witness :
    (2 : ℤ) ≤ 65536 ∧
    (((((0 : ℤ), (0 : ℤ)), ((1 : ℤ), (0 : ℤ))) ∈ (build_graph 2 smallObst).adj ↔
      ((0 ≤ ((0 : ℤ), (0 : ℤ)).1 ∧ ((0 : ℤ), (0 : ℤ)).1 < 2 ∧
        0 ≤ ((0 : ℤ), (0 : ℤ)).2 ∧ ((0 : ℤ), (0 : ℤ)).2 < 2) ∧
       hasObstacleType smallObst ((0 : ℤ), (0 : ℤ)) "Indestructible" = false ∧
       (((1 : ℤ), (0 : ℤ)).1 - ((0 : ℤ), (0 : ℤ)).1,
         ((1 : ℤ), (0 : ℤ)).2 - ((0 : ℤ), (0 : ℤ)).2) ∈ dirList ∧
       (0 ≤ ((1 : ℤ), (0 : ℤ)).1 ∧ 0 ≤ ((1 : ℤ), (0 : ℤ)).2 ∧
        ((1 : ℤ), (0 : ℤ)).1 < 2 ∧ ((1 : ℤ), (0 : ℤ)).2 < 2) ∧
       hasObstacleType smallObst ((1 : ℤ), (0 : ℤ)) "Indestructible" = false)) ∧
     ((((0 : ℤ), (0 : ℤ)), ((1 : ℤ), (0 : ℤ))) ∈ (build_graph 2 smallObst).adj →
       (build_graph 2 smallObst).cost (0, 0) (1, 0) =
         (if hasObstacleType smallObst ((1 : ℤ), (0 : ℤ)) "Destructible"
          then ((10 : ℚ) : Cost) else ((1 : ℚ) : Cost)))) :=
  ⟨by norm_num, c6_build_graph_sound 2 smallObst (0, 0) (1, 0) (by norm_num)⟩

/-- Counterexample to C6 as stated (for every grid size): on a 65537-wide grid
the 16-bit packed keys of the edges `(0,0) → (0,1)` and `(65536,0) → (65536,1)`
collide, the later insertion overwrites the weight, and the listed edge
`(0,0) → (0,1)` — whose destination holds no Destructible obstacle — reports
weight 10 instead of 1. -/
theorem c6_counterexample :
    (((0 : ℤ), (0 : ℤ)), ((0 : ℤ), (1 : ℤ))) ∈ (build_graph 65537 collideObst).adj ∧
    hasObstacleType collideObst ((0 : ℤ), (1 : ℤ)) "Destructible" = false ∧
    (build_graph 65537 collideObst).cost (0, 0) (0, 1) = ((10 : ℚ) : Cost) := by
  refine ⟨?_, by decide, ?_⟩
  · refine build_graph_adj.mpr ⟨?_, ?_, ?_, ?_, ?_⟩
    · refine ⟨by norm_num, by norm_num, by norm_num, by norm_num⟩
    · decide
    · decide
    · refine ⟨by norm_num, by norm_num, by norm_num, by norm_num⟩
    · decide
  · have hw : (build_graph 65537 collideObst).weights =
        ((buildEdges 65537 collideObst).map
          (fun e => (Graph.edge_key e.1 e.2.1, e.2.2))).reverse := by
      unfold build_graph
      rw [build_fold_weights]
      simp
    have hIR1 : intRange 65537 = intRange 65536 ++ [(65536 : ℤ)] := by
      unfold intRange
      rw [show (65537 : ℤ).toNat = 65536 + 1 from rfl, List.range_succ, List.map_append]
      rfl
    have hIR2 : intRange 65537 = (0 : ℤ) :: (List.range 65536).map (fun k : ℕ => ((k : ℤ) + 1)) := by
      unfold intRange
      rw [show (65537 : ℤ).toNat = 65536 + 1 from rfl, List.range_succ_eq_map, List.map_cons,
        List.map_map]
      have hfun : ((fun k : ℕ => (k : ℤ)) ∘ Nat.succ) = fun k : ℕ => ((k : ℤ) + 1) := by
        funext k
        simp only [Function.comp_apply]
        push_cast
        ring_nf
      rw [hfun]
      rfl
    have hF : ([(65536 : ℤ)]).flatMap (fun x =>
          (intRange 65537).flatMap (fun y => cellEdges 65537 collideObst x y)) =
        cellEdges 65537 collideObst 65536 0 ++
          ((List.range 65536).map (fun k : ℕ => ((k : ℤ) + 1))).flatMap
            (fun y => cellEdges 65537 collideObst 65536 y) := by
      simp only [List.flatMap_cons, List.flatMap_nil, List.append_nil]
      rw [hIR2]
      simp only [List.flatMap_cons]
    have hsplit : buildEdges 65537 collideObst =
        (intRange 65536).flatMap (fun x =>
          (intRange 65537).flatMap (fun y => cellEdges 65537 collideObst x y)) ++
        (cellEdges 65537 collideObst 65536 0 ++
          ((List.range 65536).map (fun k : ℕ => ((k : ℤ) + 1))).flatMap
            (fun y => cellEdges 65537 collideObst 65536 y)) := by
      unfold buildEdges
      nth_rewrite 1 [hIR1]
      rw [List.flatMap_append, hF]
    rw [Graph.cost, hw, hsplit, List.map_append, List.map_append, List.reverse_append,
      List.reverse_append, List.find?_append, List.find?_append]
    have hnone : ((((List.range 65536).map (fun k : ℕ => ((k : ℤ) + 1))).flatMap
        (fun y => cellEdges 65537 collideObst 65536 y)).map
          (fun e => (Graph.edge_key e.1 e.2.1, e.2.2))).reverse.find?
            (fun e => decide (e.1 = Graph.edge_key (0, 0) (0, 1))) = none := by
      rw [List.find?_eq_none]
      intro e he
      rw [List.mem_reverse, List.mem_map] at he
      obtain ⟨⟨a', b', w'⟩, hmem, heq⟩ := he
      rw [List.mem_flatMap] at hmem
      obtain ⟨y, hy, hcell⟩ := hmem
      rw [List.mem_map] at hy
      obtain ⟨k, hk, hky⟩ := hy
      rw [List.mem_range] at hk
      obtain ⟨ha', hsrc, hdir, hbnd, hind, hwq⟩ := mem_cellEdges.mp hcell
      subst ha'
      rw [← heq]
      dsimp only
      simp only [decide_eq_true_eq]
      intro hkey
      rw [show Graph.edge_key ((0 : ℤ), (0 : ℤ)) ((0 : ℤ), (1 : ℤ)) = 1 from by decide] at hkey
      unfold Graph.edge_key at hkey
      dsimp only at hkey
      have d1 := Int.emod_nonneg b'.1 (by norm_num : (65536 : ℤ) ≠ 0)
      have d2 := Int.emod_lt_of_pos b'.1 (by norm_num : (0 : ℤ) < 65536)
      have d3 := Int.emod_nonneg b'.2 (by norm_num : (65536 : ℤ) ≠ 0)
      have d4 := Int.emod_lt_of_pos b'.2 (by norm_num : (0 : ℤ) < 65536)
      have d5 := Int.emod_nonneg y (by norm_num : (65536 : ℤ) ≠ 0)
      have d6 := Int.emod_lt_of_pos y (by norm_num : (0 : ℤ) < 65536)
      simp only [dirList, List.mem_cons, List.not_mem_nil, or_false] at hdir
      rcases hdir with h | h | h | h <;>
        (simp only [Prod.mk.injEq] at h; obtain ⟨e1, e2⟩ := h; omega)
    rw [hnone]
    rw [show ((cellEdges 65537 collideObst 65536 0).map
        (fun e => (Graph.edge_key e.1 e.2.1, e.2.2))).reverse.find?
          (fun e => decide (e.1 = Graph.edge_key (0, 0) (0, 1))) =
        some (1, 10) from by decide]
    rfl

/-! Structural lemmas about `generate_game_entities` (claims C3, C4, C5, C8). -/

theorem intRange_nodup (n : ℤ) : (intRange n).Nodup := by
  unfold intRange
  exact (List.nodup_range _).map (fun a b h => by exact_mod_cast h)

theorem allPositions_nodup (n : ℤ) : (allPositions n).Nodup := by
  unfold allPositions
  rw [List.nodup_flatMap]
  constructor
  · intro x _
    refine List.Nodup.map ?_ (intRange_nodup n)
    intro y1 y2 h
    exact (Prod.mk.injEq .. ▸ h).2
  · refine List.Pairwise.imp ?_ (intRange_nodup n)
    intro x1 x2 hx12 p hp1 hp2
    rw [List.mem_map] at hp1 hp2
    obtain ⟨y1, -, hy1⟩ := hp1
    obtain ⟨y2, -, hy2⟩ := hp2
    exact hx12 ((Prod.mk.injEq .. ▸ (hy1.trans hy2.symm)).1)

theorem mem_allPositions {n : ℤ} {p : GridPos} :
    p ∈ allPositions n ↔ 0 ≤ p.1 ∧ p.1 < n ∧ 0 ≤ p.2 ∧ p.2 < n := by
  unfold allPositions
  simp only [List.mem_flatMap, List.mem_map]
  constructor
  · rintro ⟨x, hx, y, hy, rfl⟩
    rw [mem_intRange] at hx hy
    exact ⟨hx.1, hx.2, hy.1, hy.2⟩
  · rintro ⟨h1, h2, h3, h4⟩
    exact ⟨p.1, mem_intRange.mpr ⟨h1, h2⟩, p.2, mem_intRange.mpr ⟨h3, h4⟩, Prod.mk.eta⟩

theorem pickBatch_some {all : List GridPos} {r : GenRand} {count : ℤ} {j : ℕ}
    {p : GridPos} {es : List GridPos}
    (h : pickBatch all r count j = some (p, es)) :
    ¬ count + 1 < 0 ∧ p :: es = listResize (r.pickShuffle j all) (count + 1).toNat := by
  unfold pickBatch at h
  by_cases hc : count + 1 < 0
  · rw [if_pos hc] at h
    simp at h
  · rw [if_neg hc] at h
    refine ⟨hc, ?_⟩
    cases hres : listResize (r.pickShuffle j all) (count + 1).toNat with
    | nil =>
      rw [hres] at h
      simp at h
    | cons hd tl =>
      rw [hres] at h
      dsimp only at h
      simp only [Option.some.injEq, Prod.mk.injEq] at h
      obtain ⟨rfl, rfl⟩ := h
      rfl

theorem pickLoop_some {all : List GridPos} {r : GenRand} {md count : ℤ} {i fuel : ℕ}
    {p : GridPos} {es : List GridPos}
    (h : pickLoop all r md count i fuel = some (p, es)) :
    ∃ j, i ≤ j ∧
      pickBatch all r count j = some (p, es) ∧
      batchOk md p es = true ∧
      ∀ j', i ≤ j' → j' < j →
        ∃ pe, pickBatch all r count j' = some pe ∧ batchOk md pe.1 pe.2 = false := by
  induction fuel generalizing i with
  | zero => simp [pickLoop] at h
  | succ fuel ih =>
    rw [pickLoop] at h
    cases hb : pickBatch all r count i with
    | none =>
      rw [hb] at h
      simp at h
    | some pe =>
      obtain ⟨p0, es0⟩ := pe
      rw [hb] at h
      dsimp only at h
      by_cases hok : batchOk md p0 es0
      · rw [if_pos hok] at h
        simp only [Option.some.injEq, Prod.mk.injEq] at h
        obtain ⟨rfl, rfl⟩ := h
        exact ⟨i, le_refl i, hb, hok, fun j' hj1 hj2 => absurd (lt_of_le_of_lt hj1 hj2)
          (lt_irrefl i)⟩
      · rw [if_neg hok] at h
        obtain ⟨j, hij, hbj, hokj, hprev⟩ := ih h
        refine ⟨j, by omega, hbj, hokj, ?_⟩
        intro j' h1 h2
        rcases eq_or_lt_of_le h1 with rfl | hgt
        · refine ⟨(p0, es0), hb, ?_⟩
          revert hok
          cases batchOk md p0 es0 <;> simp
        · exact hprev j' (by omega) h2

theorem batchOk_dist {md : ℤ} {p : GridPos} {es : List GridPos}
    (h : batchOk md p es = true) :
    ∀ e ∈ es, md ≤ |p.1 - e.1| + |p.2 - e.2| := by
  intro e he
  unfold batchOk at h
  rw [List.all_eq_true] at h
  have he2 := h e he
  simp only [Bool.not_eq_true', decide_eq_false_iff_not, not_lt] at he2
  exact he2

/-- A successful, accepted batch over a grid of side at least 3 is duplicate
free: either the resize only truncates a permutation of the (duplicate-free)
cell list, or it pads with `(0, 0)` — but a padded batch repeats cells and in
particular contains a cell adjacent to the player, which the distance check
rejects. -/
theorem batch_nodup {n : ℤ} {r : GenRand} {count : ℤ} {j : ℕ} {p : GridPos}
    {es : List GridPos} (hwf : r.WF) (hn : 3 ≤ n)
    (hb : pickBatch (allPositions n) r count j = some (p, es))
    (hok : batchOk 5 p es = true) : (p :: es).Nodup := by
  obtain ⟨hc, hres⟩ := pickBatch_some hb
  have hperm : (r.pickShuffle j (allPositions n)).Perm (allPositions n) := hwf.1 j _
  have hlnodup : (r.pickShuffle j (allPositions n)).Nodup :=
    (allPositions_nodup n).perm hperm.symm
  by_cases hlen : (count + 1).toNat ≤ (r.pickShuffle j (allPositions n)).length
  · have hre : listResize (r.pickShuffle j (allPositions n)) (count + 1).toNat =
        (r.pickShuffle j (allPositions n)).take (count + 1).toNat := by
      unfold listResize
      rw [Nat.sub_eq_zero_of_le hlen, List.replicate_zero, List.append_nil]
    rw [hre] at hres
    rw [hres]
    exact List.Nodup.sublist (List.take_sublist _ _) hlnodup
  · exfalso
    push_neg at hlen
    cases hcons : r.pickShuffle j (allPositions n) with
    | nil =>
      rw [hcons] at hperm
      have h00 : ((0 : ℤ), (0 : ℤ)) ∈ allPositions n :=
        mem_allPositions.mpr ⟨le_refl 0, by omega, le_refl 0, by omega⟩
      rw [← hperm.mem_iff] at h00
      exact absurd h00 (List.not_mem_nil _)
    | cons hd tl =>
      rw [hcons] at hres hlen hlnodup hperm
      have hre : listResize (hd :: tl) (count + 1).toNat =
          (hd :: tl) ++ List.replicate ((count + 1).toNat - (hd :: tl).length) (0, 0) := by
        unfold listResize
        rw [List.take_of_length_le (by omega)]
      rw [hre] at hres
      rw [List.cons_append] at hres
      simp only [List.cons.injEq] at hres
      obtain ⟨rfl, rfl⟩ := hres
      have hpmem : p ∈ allPositions n := hperm.subset (List.mem_cons_self _ _)
      obtain ⟨hp1, hp2, hp3, hp4⟩ := mem_allPositions.mp hpmem
      by_cases hx1 : 1 ≤ p.1
      · have hqmem : ((p.1 - 1, p.2) : GridPos) ∈ allPositions n :=
          mem_allPositions.mpr ⟨by omega, by omega, hp3, hp4⟩
        have hql : ((p.1 - 1, p.2) : GridPos) ∈ p :: tl := hperm.mem_iff.mpr hqmem
        rcases List.mem_cons.mp hql with heq | htl
        · have : p.1 - 1 = p.1 := congrArg Prod.fst heq
          omega
        · have hdist := batchOk_dist hok _ (List.mem_append_left _ htl)
          have e1 : p.1 - (p.1 - 1) = 1 := by ring
          rw [e1] at hdist
          dsimp only at hdist
          rw [sub_self, abs_zero] at hdist
          norm_num at hdist
      · have hqmem : ((p.1 + 1, p.2) : GridPos) ∈ allPositions n :=
          mem_allPositions.mpr ⟨by omega, by omega, hp3, hp4⟩
        have hql : ((p.1 + 1, p.2) : GridPos) ∈ p :: tl := hperm.mem_iff.mpr hqmem
        rcases List.mem_cons.mp hql with heq | htl
        · have : p.1 + 1 = p.1 := congrArg Prod.fst heq
          omega
        · have hdist := batchOk_dist hok _ (List.mem_append_left _ htl)
          have e1 : p.1 - (p.1 + 1) = -1 := by ring
          rw [e1] at hdist
          dsimp only at hdist
          rw [sub_self, abs_zero] at hdist
          norm_num at hdist

/-- Inversion of a successful `generate_game_entities` run into its stages. -/
theorem generate_inversion {n oc ic0 ec hp : ℤ} {r : GenRand} {fuel : ℕ}
    {obstacles : List (GridPos × Obstacle)} {items : List Item} {player : GridPos}
    {enemies : List GridPos} {mains : List GridPos}
    (h : generate_game_entities n oc ic0 ec hp r fuel =
      some (obstacles, items, player, enemies, mains)) :
    ∃ main_pos rest chosen,
      pickLoop (allPositions n) r 5 ec 0 fuel = some (player, enemies) ∧
      mainCandidates n player enemies ≠ [] ∧
      main_pos = (mainCandidates n player enemies).getD
        (r.goalPick (mainCandidates n player enemies).length) (0, 0) ∧
      rest = (r.restShuffle (restCandidates n player enemies main_pos)).take
        (min (max (oc - 1) 0)
          ((restCandidates n player enemies main_pos).length : ℤ)).toNat ∧
      obstacles =
        (main_pos, { Obstacle.make main_pos.1 main_pos.2 "Destructible" hp
          with is_main_block := true }) ::
          rest.enum.map (fun e =>
            if (e.1 : ℤ) < ⌊((min (max (oc - 1) 0)
                ((restCandidates n player enemies main_pos).length : ℤ)) * 3 : ℚ) / 10⌋ then
              (e.2, Obstacle.make e.2.1 e.2.2 "Destructible" OBSTACLE_HEALTH)
            else
              (e.2, Obstacle.make e.2.1 e.2.2 "Indestructible")) ∧
      1 ≤ min (max ic0 1) ((itemCandidates n player enemies main_pos rest).length : ℤ) ∧
      chosen = (r.itemShuffle (itemCandidates n player enemies main_pos rest)).take
        ((min (max ic0 1)
          ((itemCandidates n player enemies main_pos rest).length : ℤ)) - 1).toNat ∧
      items = chosen.map (fun p => Item.make p.1 p.2 false) ++
        [Item.make main_pos.1 main_pos.2 true] ∧
      mains = [main_pos] := by
  unfold generate_game_entities at h
  split at h
  · exact absurd h (by simp)
  · rename_i player0 enemies0 heqpick
    split at h
    · exact absurd h (by simp)
    · rename_i hempty
      dsimp only at h
      split at h
      · exact absurd h (by simp)
      · rename_i hic
        simp only [Option.some.injEq, Prod.mk.injEq] at h
        obtain ⟨hobs, hitems, rfl, rfl, hmains⟩ := h
        refine ⟨_, _, _, heqpick, ?_, rfl, rfl, hobs.symm, by omega, rfl, hitems.symm,
          hmains.symm⟩
        intro hnil
        exact hempty (List.isEmpty_iff.mpr hnil)

/-- C4: every terminating `generate_game_entities` call returns enemy starts
that are all at Manhattan distance at least 5 from the player start, and the
returned starts are the first batch accepted by the rejection-sampling loop —
every earlier batch was rejected as a whole. -/
theorem c4_enemy_distance (n oc ic0 ec hp : ℤ) (r : GenRand) (fuel : ℕ)
    (obstacles : List (GridPos × Obstacle)) (items : List Item) (player : GridPos)
    (enemies : List GridPos) (mains : List GridPos)
    (h : generate_game_entities n oc ic0 ec hp r fuel =
      some (obstacles, items, player, enemies, mains)) :
    (∀ e ∈ enemies, 5 ≤ |player.1 - e.1| + |player.2 - e.2|) ∧
    ∃ j, pickBatch (allPositions n) r ec j = some (player, enemies) ∧
      batchOk 5 player enemies = true ∧
      ∀ j' < j, ∃ pe, pickBatch (allPositions n) r ec j' = some pe ∧
        batchOk 5 pe.1 pe.2 = false := by
  obtain ⟨mp, rest, chosen, hpick, -⟩ := generate_inversion h
  obtain ⟨j, -, hb, hok, hprev⟩ := pickLoop_some hpick
  exact ⟨batchOk_dist hok, j, hb, hok, fun j' hj => hprev j' (Nat.zero_le _) hj⟩

/-- Witness for C4: an 8×8 run placing the player at `(0,0)` and one enemy at
`(7,7)`, at Manhattan distance 14. -/
theorem c4_enemy_distance_witness :
    generate_game_entities 8 3 2 1 40 farRand 3 =
      some ([(((1 : ℤ), (1 : ℤ)),
        { gx := 1, gy := 1, type := "Destructible", health := 40, is_main_block := true,
          nonblocking := false }),
        (((0 : ℤ), (1 : ℤ)),
        { gx := 0, gy := 1, type := "Indestructible", health := 0, is_main_block := false,
          nonblocking := false }),
        (((0 : ℤ), (2 : ℤ)),
        { gx := 0, gy := 2, type := "Indestructible", health := 0, is_main_block := false,
          nonblocking := false })],
        [{ x := 0, y := 3, is_main := false }, { x := 1, y := 1, is_main := true }],
        ((0 : ℤ), (0 : ℤ)), [((7 : ℤ), (7 : ℤ))], [((1 : ℤ), (1 : ℤ))]) ∧
    ((∀ e ∈ [((7 : ℤ), (7 : ℤ))],
        5 ≤ |((0 : ℤ), (0 : ℤ)).1 - e.1| + |((0 : ℤ), (0 : ℤ)).2 - e.2|) ∧
      ∃ j, pickBatch (allPositions 8) farRand 1 j =
          some (((0 : ℤ), (0 : ℤ)), [((7 : ℤ), (7 : ℤ))]) ∧
        batchOk 5 ((0 : ℤ), (0 : ℤ)) [((7 : ℤ), (7 : ℤ))] = true ∧
        ∀ j' < j, ∃ pe, pickBatch (allPositions 8) farRand 1 j' = some pe ∧
          batchOk 5 pe.1 pe.2 = false) :=
  ⟨by with_unfolding_all decide,
    c4_enemy_distance 8 3 2 1 40 farRand 3
      [(((1 : ℤ), (1 : ℤ)),
        { gx := 1, gy := 1, type := "Destructible", health := 40, is_main_block := true,
          nonblocking := false }),
        (((0 : ℤ), (1 : ℤ)),
        { gx := 0, gy := 1, type := "Indestructible", health := 0, is_main_block := false,
          nonblocking := false }),
        (((0 : ℤ), (2 : ℤ)),
        { gx := 0, gy := 2, type := "Indestructible", health := 0, is_main_block := false,
          nonblocking := false })]
      [{ x := 0, y := 3, is_main := false }, { x := 1, y := 1, is_main := true }]
      ((0 : ℤ), (0 : ℤ)) [((7 : ℤ), (7 : ℤ))] [((1 : ℤ), (1 : ℤ))]
      (by with_unfolding_all decide)⟩

theorem mem_mainCandidates {n : ℤ} {player : GridPos} {enemies : List GridPos} {q : GridPos} :
    q ∈ mainCandidates n player enemies ↔
      q ∈ allPositions n ∧ q ∉ player :: enemies ++ cornerList n ∧ is_not_edge q n := by
  unfold mainCandidates
  simp only [List.mem_filter, Bool.and_eq_true, decide_eq_true_eq, and_assoc]

theorem mem_restCandidates {n : ℤ} {player mp : GridPos} {enemies : List GridPos}
    {q : GridPos} :
    q ∈ restCandidates n player enemies mp ↔
      q ∈ allPositions n ∧ q ∉ mp :: player :: enemies ++ cornerList n := by
  unfold restCandidates
  simp only [List.mem_filter, decide_eq_true_eq]

theorem mem_itemCandidates {n : ℤ} {player mp : GridPos} {enemies rest : List GridPos}
    {q : GridPos} :
    q ∈ itemCandidates n player enemies mp rest ↔
      q ∈ allPositions n ∧ q ∉ rest ++ mp :: player :: enemies ++ cornerList n := by
  unfold itemCandidates
  simp only [List.mem_filter, decide_eq_true_eq]

theorem mainPos_mem {n : ℤ} {player : GridPos} {enemies : List GridPos} {r : GenRand}
    (hwf : r.WF) (hne : mainCandidates n player enemies ≠ []) :
    (mainCandidates n player enemies).getD
      (r.goalPick (mainCandidates n player enemies).length) (0, 0) ∈
      mainCandidates n player enemies := by
  have hlen : 0 < (mainCandidates n player enemies).length := List.length_pos.mpr hne
  have hlt := hwf.2.1 _ hlen
  rw [List.getD_eq_getElem _ _ hlt]
  exact List.getElem_mem hlt

theorem grid_ge3 {n : ℤ} {player : GridPos} {enemies : List GridPos}
    (hne : mainCandidates n player enemies ≠ []) : 3 ≤ n := by
  obtain ⟨q, hq⟩ := List.exists_mem_of_ne_nil _ hne
  obtain ⟨-, -, hedge⟩ := mem_mainCandidates.mp hq
  obtain ⟨h1, h2, h3, h4⟩ := hedge
  omega

/-- Counterexample to C3 as stated: a terminating 4×4 run in which (a) the
goal cell `(1,1)` is simultaneously an obstacle cell and an item cell (the
designed co-location of the goal guard and the primary item), violating "no
two of {player start, enemy starts, goal cell, obstacle cells, item cells}
occupy the same grid cell", and (b) the player start is the reserved corner
`(0,0)` — `pick_valid_positions` samples from all cells, ignoring the
forbidden corners. -/
theorem c3_counterexample :
    generate_game_entities 4 1 1 0 40 idRand 3 =
      some ([(((1 : ℤ), (1 : ℤ)),
        { gx := 1, gy := 1, type := "Destructible", health := 40, is_main_block := true,
          nonblocking := false })],
        [{ x := 1, y := 1, is_main := true }],
        ((0 : ℤ), (0 : ℤ)), [], [((1 : ℤ), (1 : ℤ))]) ∧
    ((1 : ℤ), (1 : ℤ)) ∈ ([(((1 : ℤ), (1 : ℤ)),
        ({ gx := 1, gy := 1, type := "Destructible", health := 40, is_main_block := true,
                     nonblocking := false } : Obstacle))].map Prod.fst) ∧
    ((1 : ℤ), (1 : ℤ)) ∈ ([{ x := 1, y := 1, is_main := true }].map
      (fun it : Item => ((it.x, it.y) : GridPos))) ∧
    ((0 : ℤ), (0 : ℤ)) ∈ cornerList 4 :=
  ⟨by with_unfolding_all decide, by decide, by decide, by decide⟩

/-- C3 (amended): in every terminating run the placements are pairwise
disjoint except for the designed co-location at the goal cell, which hosts
both the goal-guard obstacle and the primary item; obstacles and items never
sit on the four reserved corners, while the player and enemy starts — sampled
from all cells — are not corner-excluded. -/
theorem c3_no_overlap (n oc ic0 ec hp : ℤ) (r : GenRand) (fuel : ℕ)
    (obstacles : List (GridPos × Obstacle)) (items : List Item) (player : GridPos)
    (enemies : List GridPos) (mains : List GridPos) (hwf : r.WF)
    (h : generate_game_entities n oc ic0 ec hp r fuel =
      some (obstacles, items, player, enemies, mains)) :
    ∃ goal : GridPos,
      mains = [goal] ∧
      goal ∈ obstacles.map Prod.fst ∧
      (items.filter (fun it => it.is_main)).map (fun it => ((it.x, it.y) : GridPos)) =
        [goal] ∧
      ((player :: enemies) ++ obstacles.map Prod.fst ++
        (items.filter (fun it => !it.is_main)).map
          (fun it => ((it.x, it.y) : GridPos))).Nodup ∧
      ∀ c ∈ obstacles.map Prod.fst ++ items.map (fun it => ((it.x, it.y) : GridPos)),
        c ∉ cornerList n := by
  obtain ⟨mp, rest, chosen, hpick, hmc, hmp, hrest, hobs, hic, hchosen, hitems, hmains⟩ :=
    generate_inversion h
  have hmpmem : mp ∈ mainCandidates n player enemies := by
    rw [hmp]
    exact mainPos_mem hwf hmc
  obtain ⟨hmpall, hmpnotf, hmpedge⟩ := mem_mainCandidates.mp hmpmem
  have hn3 : 3 ≤ n := grid_ge3 hmc
  obtain ⟨j, -, hb, hok, -⟩ := pickLoop_some hpick
  have hpe : (player :: enemies).Nodup := batch_nodup hwf hn3 hb hok
  -- the placed obstacle cells are the goal cell followed by the rest picks
  have hobc : obstacles.map Prod.fst = mp :: rest := by
    rw [hobs]
    simp only [List.map_cons, List.map_map]
    congr 1
    have hcomp : (Prod.fst ∘ (fun e : ℕ × GridPos =>
        if (e.1 : ℤ) < ⌊((min (max (oc - 1) 0)
            ((restCandidates n player enemies mp).length : ℤ)) * 3 : ℚ) / 10⌋ then
          (e.2, Obstacle.make e.2.1 e.2.2 "Destructible" OBSTACLE_HEALTH)
        else
          (e.2, Obstacle.make e.2.1 e.2.2 "Indestructible"))) =
        fun e : ℕ × GridPos => e.2 := by
      funext e
      dsimp only [Function.comp_apply]
      split <;> rfl
    rw [hcomp]
    exact List.enum_map_snd rest
  -- rest picks: duplicate free and inside the rest candidates
  have hrshuf : (r.restShuffle (restCandidates n player enemies mp)).Perm
      (restCandidates n player enemies mp) := hwf.2.2.1 _
  have hrest_nodup : rest.Nodup := by
    rw [hrest]
    exact List.Nodup.sublist (List.take_sublist _ _)
      (((allPositions_nodup n).filter _).perm hrshuf.symm)
  have hrest_sub : ∀ q ∈ rest, q ∈ restCandidates n player enemies mp := by
    rw [hrest]
    exact fun q hq => hrshuf.subset (List.mem_of_mem_take hq)
  -- item picks: duplicate free and inside the item candidates
  have hishuf : (r.itemShuffle (itemCandidates n player enemies mp rest)).Perm
      (itemCandidates n player enemies mp rest) := hwf.2.2.2 _
  have hchosen_nodup : chosen.Nodup := by
    rw [hchosen]
    exact List.Nodup.sublist (List.take_sublist _ _)
      (((allPositions_nodup n).filter _).perm hishuf.symm)
  have hchosen_sub : ∀ q ∈ chosen, q ∈ itemCandidates n player enemies mp rest := by
    rw [hchosen]
    exact fun q hq => hishuf.subset (List.mem_of_mem_take hq)
  -- item cells
  have hfmain : (items.filter (fun it => it.is_main)).map
      (fun it => ((it.x, it.y) : GridPos)) = [mp] := by
    rw [hitems, List.filter_append]
    have h1 : (chosen.map (fun p => Item.make p.1 p.2 false)).filter
        (fun it => it.is_main) = [] := by
      rw [List.filter_eq_nil_iff]
      intro it hit
      rw [List.mem_map] at hit
      obtain ⟨p, -, hp⟩ := hit
      rw [← hp]
      simp [Item.make]
    rw [h1, List.nil_append]
    show ([Item.make mp.1 mp.2 true].filter (fun it => it.is_main)).map
      (fun it => ((it.x, it.y) : GridPos)) = [mp]
    simp [Item.make]
  have hfnon : (items.filter (fun it => !it.is_main)).map
      (fun it => ((it.x, it.y) : GridPos)) = chosen := by
    rw [hitems, List.filter_append]
    have h1 : (chosen.map (fun p => Item.make p.1 p.2 false)).filter
        (fun it => !it.is_main) = chosen.map (fun p => Item.make p.1 p.2 false) := by
      rw [List.filter_eq_self]
      intro it hit
      rw [List.mem_map] at hit
      obtain ⟨p, -, hp⟩ := hit
      rw [← hp]
      simp [Item.make]
    have h2 : ([Item.make mp.1 mp.2 true].filter (fun it => !it.is_main)) = [] := by
      simp [Item.make]
    rw [h1, h2, List.append_nil, List.map_map]
    have hcomp : ((fun it : Item => ((it.x, it.y) : GridPos)) ∘
        (fun p : GridPos => Item.make p.1 p.2 false)) = fun p : GridPos => p := by
      funext p
      simp [Item.make, Function.comp_apply]
    rw [hcomp]
    simp
  have hallcells : items.map (fun it => ((it.x, it.y) : GridPos)) = chosen ++ [mp] := by
    rw [hitems, List.map_append, List.map_map]
    have hcomp : ((fun it : Item => ((it.x, it.y) : GridPos)) ∘
        (fun p : GridPos => Item.make p.1 p.2 false)) = fun p : GridPos => p := by
      funext p
      simp [Item.make, Function.comp_apply]
    rw [hcomp]
    simp [Item.make]
  -- non-membership facts
  have hmp_not_pe : mp ∉ player :: enemies := fun hmem => by
    rcases List.mem_cons.mp hmem with rfl | hmem'
    · exact hmpnotf (List.mem_cons_self _ _)
    · exact hmpnotf (List.mem_cons_of_mem _ (List.mem_append_left _ hmem'))
  have hmp_not_corner : mp ∉ cornerList n := fun hmem =>
    hmpnotf (List.mem_cons_of_mem _ (List.mem_append_right _ hmem))
  have hrest_not : ∀ q ∈ rest, q ∉ mp :: player :: enemies ++ cornerList n :=
    fun q hq => (mem_restCandidates.mp (hrest_sub q hq)).2
  have hchosen_not : ∀ q ∈ chosen,
      q ∉ rest ++ mp :: player :: enemies ++ cornerList n :=
    fun q hq => (mem_itemCandidates.mp (hchosen_sub q hq)).2
  refine ⟨mp, hmains, ?_, hfmain, ?_, ?_⟩
  · rw [hobc]
    exact List.mem_cons_self _ _
  · rw [hobc, hfnon]
    refine List.Nodup.append (List.Nodup.append hpe ?_ ?_) hchosen_nodup ?_
    · rw [List.nodup_cons]
      refine ⟨fun hmem => ?_, hrest_nodup⟩
      exact hrest_not mp hmem (List.mem_cons_self _ _)
    · intro a hape hamr
      rcases List.mem_cons.mp hamr with rfl | har
      · exact hmp_not_pe hape
      · rcases List.mem_cons.mp hape with rfl | hae
        · exact hrest_not a har (List.mem_cons_of_mem _ (List.mem_cons_self _ _))
        · exact hrest_not a har (List.mem_cons_of_mem _ (List.mem_cons_of_mem _
            (List.mem_append_left _ hae)))
    · intro a halhs hach
      have hnot := hchosen_not a hach
      rcases List.mem_append.mp halhs with hape | hamr
      · rcases List.mem_cons.mp hape with rfl | hae
        · exact hnot (List.mem_append_left _ (List.mem_append_right _
            (List.mem_cons_of_mem _ (List.mem_cons_self _ _))))
        · exact hnot (List.mem_append_left _ (List.mem_append_right _
            (List.mem_cons_of_mem _ (List.mem_cons_of_mem _ hae))))
      · rcases List.mem_cons.mp hamr with rfl | har
        · exact hnot (List.mem_append_left _ (List.mem_append_right _
            (List.mem_cons_self _ _)))
        · exact hnot (List.mem_append_left _ (List.mem_append_left _ har))
  · rw [hobc, hallcells]
    intro c hc hcorner
    rcases List.mem_append.mp hc with hmr | hcm
    · rcases List.mem_cons.mp hmr with rfl | hcr
      · exact hmp_not_corner hcorner
      · exact hrest_not c hcr (List.mem_cons_of_mem _ (List.mem_cons_of_mem _
          (List.mem_append_right _ hcorner)))
    · rcases List.mem_append.mp hcm with hcch | hcmp
      · exact hchosen_not c hcch (List.mem_append_right _ hcorner)
      · rw [List.mem_singleton] at hcmp
        subst hcmp
        exact hmp_not_corner hcorner

/-- Witness for the amended C3 theorem: the 4×4 run with identity shuffles
satisfies the disjointness-up-to-the-goal-cell conclusion. -/
theorem c3_no_overlap_witness :
    ∃ goal : GridPos,
      [((1 : ℤ), (1 : ℤ))] = [goal] ∧
      goal ∈ ([(((1 : ℤ), (1 : ℤ)),
        ({ gx := 1, gy := 1, type := "Destructible", health := 40, is_main_block := true,
                     nonblocking := false } : Obstacle))].map Prod.fst) ∧
      (([({ x := 1, y := 1, is_main := true } : Item)].filter
          (fun it => it.is_main)).map (fun it => ((it.x, it.y) : GridPos)) = [goal]) ∧
      (((((0 : ℤ), (0 : ℤ)) :: ([] : List GridPos)) ++
        ([(((1 : ℤ), (1 : ℤ)),
          ({ gx := 1, gy := 1, type := "Destructible", health := 40, is_main_block := true,
                       nonblocking := false } : Obstacle))].map Prod.fst) ++
        (([({ x := 1, y := 1, is_main := true } : Item)].filter
          (fun it => !it.is_main)).map (fun it => ((it.x, it.y) : GridPos)))).Nodup) ∧
      ∀ c ∈ ([(((1 : ℤ), (1 : ℤ)),
          ({ gx := 1, gy := 1, type := "Destructible", health := 40, is_main_block := true,
                       nonblocking := false } : Obstacle))].map Prod.fst) ++
          ([({ x := 1, y := 1, is_main := true } : Item)].map
            (fun it => ((it.x, it.y) : GridPos))),
        c ∉ cornerList 4 :=
  c3_no_overlap 4 1 1 0 40 idRand 3
    [(((1 : ℤ), (1 : ℤ)),
      ({ gx := 1, gy := 1, type := "Destructible", health := 40, is_main_block := true,
                   nonblocking := false } : Obstacle))]
    [({ x := 1, y := 1, is_main := true } : Item)]
    ((0 : ℤ), (0 : ℤ)) [] [((1 : ℤ), (1 : ℤ))]
    ⟨fun _ _ => List.Perm.refl _, fun _ h => h, fun _ => List.Perm.refl _,
      fun _ => List.Perm.refl _⟩
    (by with_unfolding_all decide)

/-- C5: in every terminating run the goal cell is strictly inside the grid,
distinct from the player start, every enemy start and the reserved corners,
and hosts the unique goal-guard obstacle — Destructible with health equal to
the given hit points — co-located with the unique primary item. -/
theorem c5_goal_guard (n oc ic0 ec hp : ℤ) (r : GenRand) (fuel : ℕ)
    (obstacles : List (GridPos × Obstacle)) (items : List Item) (player : GridPos)
    (enemies : List GridPos) (mains : List GridPos) (hwf : r.WF)
    (h : generate_game_entities n oc ic0 ec hp r fuel =
      some (obstacles, items, player, enemies, mains)) :
    ∃ goal : GridPos,
      mains = [goal] ∧
      (1 ≤ goal.1 ∧ goal.1 ≤ n - 2 ∧ 1 ≤ goal.2 ∧ goal.2 ≤ n - 2) ∧
      goal ∉ player :: enemies ∧
      goal ∉ cornerList n ∧
      obstacles.filter (fun ob => ob.2.is_main_block) =
        [(goal, { gx := goal.1, gy := goal.2, type := "Destructible", health := hp,
                  is_main_block := true, nonblocking := false })] ∧
      items.filter (fun it => it.is_main) =
        [{ x := goal.1, y := goal.2, is_main := true }] := by
  obtain ⟨mp, rest, chosen, hpick, hmc, hmp, hrest, hobs, hic, hchosen, hitems, hmains⟩ :=
    generate_inversion h
  have hmpmem : mp ∈ mainCandidates n player enemies := by
    rw [hmp]
    exact mainPos_mem hwf hmc
  obtain ⟨hmpall, hmpnotf, hmpedge⟩ := mem_mainCandidates.mp hmpmem
  obtain ⟨he1, he2, he3, he4⟩ := hmpedge
  refine ⟨mp, hmains, by omega, ?_, ?_, ?_, ?_⟩
  · intro hmem
    rcases List.mem_cons.mp hmem with rfl | hmem'
    · exact hmpnotf (List.mem_append_left _ (List.mem_cons_self _ _))
    · exact hmpnotf (List.mem_append_left _ (List.mem_cons_of_mem _ hmem'))
  · exact fun hmem => hmpnotf (List.mem_append_right _ hmem)
  · rw [hobs, List.filter_cons, if_pos rfl]
    have hnil : (rest.enum.map (fun e =>
        if (e.1 : ℤ) < ⌊((min (max (oc - 1) 0)
            ((restCandidates n player enemies mp).length : ℤ)) * 3 : ℚ) / 10⌋ then
          (e.2, Obstacle.make e.2.1 e.2.2 "Destructible" OBSTACLE_HEALTH)
        else
          (e.2, Obstacle.make e.2.1 e.2.2 "Indestructible"))).filter
        (fun ob => ob.2.is_main_block) = [] := by
      rw [List.filter_eq_nil_iff]
      intro ob hob
      rw [List.mem_map] at hob
      obtain ⟨e, -, hobv⟩ := hob
      rw [← hobv]
      split <;> simp [Obstacle.make]
    rw [hnil]
    rfl
  · rw [hitems, List.filter_append]
    have h1 : (chosen.map (fun p => Item.make p.1 p.2 false)).filter
        (fun it => it.is_main) = [] := by
      rw [List.filter_eq_nil_iff]
      intro it hit
      rw [List.mem_map] at hit
      obtain ⟨p, -, hp⟩ := hit
      rw [← hp]
      simp [Item.make]
    rw [h1, List.nil_append]
    rfl

/-- Witness for the C5 theorem on the concrete 4×4 identity-shuffle run. -/
theorem c5_goal_guard_witness :
    ∃ goal : GridPos,
      [((1 : ℤ), (1 : ℤ))] = [goal] ∧
      (1 ≤ goal.1 ∧ goal.1 ≤ 4 - 2 ∧ 1 ≤ goal.2 ∧ goal.2 ≤ 4 - 2) ∧
      goal ∉ ((0 : ℤ), (0 : ℤ)) :: ([] : List GridPos) ∧
      goal ∉ cornerList 4 ∧
      ([(((1 : ℤ), (1 : ℤ)),
        ({ gx := 1, gy := 1, type := "Destructible", health := 40, is_main_block := true,
                     nonblocking := false } : Obstacle))].filter
          (fun ob => ob.2.is_main_block)) =
        [(goal, { gx := goal.1, gy := goal.2, type := "Destructible", health := 40,
                  is_main_block := true, nonblocking := false })] ∧
      ([({ x := 1, y := 1, is_main := true } : Item)].filter (fun it => it.is_main)) =
        [{ x := goal.1, y := goal.2, is_main := true }] :=
  c5_goal_guard 4 1 1 0 40 idRand 3
    [(((1 : ℤ), (1 : ℤ)),
      ({ gx := 1, gy := 1, type := "Destructible", health := 40, is_main_block := true,
                   nonblocking := false } : Obstacle))]
    [({ x := 1, y := 1, is_main := true } : Item)]
    ((0 : ℤ), (0 : ℤ)) [] [((1 : ℤ), (1 : ℤ))]
    ⟨fun _ _ => List.Perm.refl _, fun _ h => h, fun _ => List.Perm.refl _,
      fun _ => List.Perm.refl _⟩
    (by with_unfolding_all decide)

/-- C8: `generate_game_entities` does not always return normally. On a 3×3
grid with `obstacle_count = 5` the rest obstacles fill every cell that is not
the goal, the player or a corner, so `item_candidates` is empty; the clamped
`item_count` is then `min (max 3 1) 0 = 0` and the code calls
`chosen_items.resize(item_count - 1)` with `item_count - 1 = -1`, which wraps
to `SIZE_MAX` and aborts via `std::length_error` instead of clamping to a
floor of one item (modelled by the `none` result of the embedding). -/
theorem c8_item_resize_crash :
    generate_game_entities 3 5 3 0 40 idRand 1 = none ∧
    pickLoop (allPositions 3) idRand 5 0 0 1 = some (((0 : ℤ), (0 : ℤ)), []) ∧
    mainCandidates 3 ((0 : ℤ), (0 : ℤ)) [] = [((1 : ℤ), (1 : ℤ))] ∧
    itemCandidates 3 ((0 : ℤ), (0 : ℤ)) [] ((1 : ℤ), (1 : ℤ))
      [((0 : ℤ), (1 : ℤ)), ((1 : ℤ), (0 : ℤ)), ((1 : ℤ), (2 : ℤ)), ((2 : ℤ), (1 : ℤ))] =
      [] := by
  with_unfolding_all decide

/-! The A* optimality and termination development (claim C2). -/

theorem heuristic_nonneg (a b : GridPos) : 0 ≤ heuristic a b := by
  unfold heuristic
  exact_mod_cast add_nonneg (abs_nonneg _) (abs_nonneg _)

theorem heuristic_self (a : GridPos) : heuristic a a = 0 := by
  simp [heuristic]

theorem heuristic_cost_nonneg (a b : GridPos) : (0 : Cost) ≤ (heuristic a b : Cost) := by
  rw [show (0 : Cost) = ((0 : ℚ) : Cost) from rfl]
  exact_mod_cast heuristic_nonneg a b

theorem dynPath_cost_nonneg {g : Graph} {obstacles : GridPos → Option Obstacle}
    {a z : GridPos} {p : List GridPos} {c : Cost}
    (hpos : ∀ x y, y ∈ g.neighbors x → ∀ w, dynamicStepCost g obstacles x y = some w →
      ∃ q : ℚ, w = (q : Cost) ∧ 0 < q)
    (hp : IsDynPath g obstacles a z p c) : (0 : Cost) ≤ c := by
  induction hp with
  | single v => exact le_refl _
  | cons hb hw _ ih =>
    obtain ⟨q, rfl, hq⟩ := hpos _ _ hb _ hw
    refine add_nonneg ?_ ih
    rw [show (0 : Cost) = ((0 : ℚ) : Cost) from rfl]
    exact_mod_cast le_of_lt hq

theorem dynPath_append {g : Graph} {obstacles : GridPos → Option Obstacle}
    {a z z' : GridPos} {p : List GridPos} {c w : Cost}
    (hp : IsDynPath g obstacles a z p c) :
    z' ∈ g.neighbors z → dynamicStepCost g obstacles z z' = some w →
    IsDynPath g obstacles a z' (p ++ [z']) (c + w) := by
  induction hp with
  | single v =>
    intro hb hw
    rw [zero_add]
    have h0 : w = w + 0 := (add_zero w).symm
    rw [h0]
    exact IsDynPath.cons hb hw (IsDynPath.single z')
  | cons hb1 hw1 _ ih =>
    intro hb hw
    rw [add_assoc]
    simp only [List.cons_append] at ih ⊢
    exact IsDynPath.cons hb1 hw1 (ih hb hw)

theorem dynPath_htele {g : Graph} {obstacles : GridPos → Option Obstacle}
    {goal a z : GridPos} {p : List GridPos} {c : Cost}
    (hcons : ∀ x y, y ∈ g.neighbors x → ∀ w, dynamicStepCost g obstacles x y = some w →
      (heuristic goal x : Cost) ≤ w + (heuristic goal y : Cost))
    (hp : IsDynPath g obstacles a z p c) :
    (heuristic goal a : Cost) ≤ c + (heuristic goal z : Cost) := by
  induction hp with
  | single v => rw [zero_add]
  | cons hb hw _ ih =>
    refine le_trans (hcons _ _ hb _ hw) ?_
    rw [add_assoc]
    exact add_le_add_left ih _

/-- Telescoping bound at a pop: walking any dynamic path that starts at an
expanded cell, either the endpoint is expanded with recorded cost at most the
path cost, or some frontier entry prices it at most the path cost plus its
heuristic, so the popped minimal priority is below that. -/
theorem astar_pop_bound_aux {g : Graph} {obstacles : GridPos → Option Obstacle}
    {goal start : GridPos} {E : List GridPos} {st : AState} {pri_c : Cost}
    (hcons : ∀ x y, y ∈ g.neighbors x → ∀ w, dynamicStepCost g obstacles x y = some w →
      (heuristic goal x : Cost) ≤ w + (heuristic goal y : Cost))
    (hinv : AInv g obstacles goal start E E st)
    (hmin : ∀ e ∈ st.frontier, pri_c ≤ e.1)
    {a z : GridPos} {p : List GridPos} {c : Cost}
    (hp : IsDynPath g obstacles a z p c) :
    ∀ ca, a ∈ E → alist.find st.cost_so_far a = some ca →
      (z ∈ E ∧ ∃ cz, alist.find st.cost_so_far z = some cz ∧ cz ≤ ca + c) ∨
      pri_c ≤ ca + c + (heuristic goal z : Cost) := by
  induction hp with
  | single v =>
    intro ca hE hca
    exact Or.inl ⟨hE, ca, hca, by rw [add_zero]⟩
  | cons hb hw htail ih =>
    intro ca hEa hca
    rename_i a b z rest w c'
    obtain ⟨cu, hcu, hrel⟩ := hinv.relaxed a hEa
    have hcu_eq : cu = ca := by
      rw [hcu] at hca
      exact Option.some.inj hca
    subst hcu_eq
    obtain ⟨cb, hcb, hcble⟩ := hrel b hb w hw
    by_cases hbE : b ∈ E
    · rcases ih cb hbE hcb with ⟨hzE, cz, hcz, hle⟩ | hpri
      · refine Or.inl ⟨hzE, cz, hcz, le_trans hle ?_⟩
        rw [← add_assoc]
        exact add_le_add_right hcble c'
      · refine Or.inr (le_trans hpri ?_)
        refine add_le_add_right ?_ _
        rw [← add_assoc]
        exact add_le_add_right hcble c'
    · rcases hinv.open_or_closed b cb hcb with hEb' | ⟨prib, hmemb, hprib⟩
      · exact absurd hEb' hbE
      · refine Or.inr ?_
        have h2 : pri_c ≤ prib := hmin _ hmemb
        have h3 : (heuristic goal b : Cost) ≤ c' + (heuristic goal z : Cost) :=
          dynPath_htele hcons htail
        have h4 : cb + (heuristic goal b : Cost) ≤
            (cu + w) + (c' + (heuristic goal z : Cost)) := add_le_add hcble h3
        have h5 : (cu + w) + (c' + (heuristic goal z : Cost)) =
            cu + (w + c') + (heuristic goal z : Cost) := by
          rw [add_assoc, add_assoc, add_assoc]
        rw [h5] at h4
        exact le_trans h2 (le_trans hprib h4)

/-- At a pop of minimal priority `pri_c`: any dynamic path from `start` either
ends at a cell whose recorded cost is at most the path's cost, or bounds
`pri_c` by the path's cost plus the endpoint's heuristic. -/
theorem astar_pop_bound {g : Graph} {obstacles : GridPos → Option Obstacle}
    {goal start : GridPos} {E : List GridPos} {st : AState} {pri_c : Cost}
    (hcons : ∀ x y, y ∈ g.neighbors x → ∀ w, dynamicStepCost g obstacles x y = some w →
      (heuristic goal x : Cost) ≤ w + (heuristic goal y : Cost))
    (hinv : AInv g obstacles goal start E E st)
    (hmin : ∀ e ∈ st.frontier, pri_c ≤ e.1)
    {z : GridPos} {p : List GridPos} {c : Cost}
    (hp : IsDynPath g obstacles start z p c) :
    (∃ cz, alist.find st.cost_so_far z = some cz ∧ cz ≤ c) ∨
      pri_c ≤ c + (heuristic goal z : Cost) := by
  rcases hinv.open_or_closed start _ hinv.start0 with hsE | ⟨pri0, hmem0, hpri0⟩
  · rcases astar_pop_bound_aux hcons hinv hmin hp _ hsE hinv.start0 with
      ⟨-, cz, hcz, hle⟩ | hpri
    · rw [show ((0 : ℚ) : Cost) = 0 from rfl, zero_add] at hle
      exact Or.inl ⟨cz, hcz, hle⟩
    · rw [show ((0 : ℚ) : Cost) = 0 from rfl, zero_add] at hpri
      exact Or.inr hpri
  · refine Or.inr ?_
    have h1 : pri_c ≤ pri0 := hmin _ hmem0
    rw [show ((0 : ℚ) : Cost) = 0 from rfl, zero_add] at hpri0
    have h2 : (heuristic goal start : Cost) ≤ c + (heuristic goal z : Cost) :=
      dynPath_htele hcons hp
    exact le_trans h1 (le_trans hpri0 h2)

/-- A successful relaxation write — the guard of lines 367-368 passed for
neighbor `n` of the popped cell `current` with candidate cost
`c_cur + w` — preserves the loop invariant. -/
theorem astar_written_preserve {g : Graph} {obstacles : GridPos → Option Obstacle}
    {goal start current : GridPos} {E : List GridPos} {st : AState} {c_cur w : Cost}
    {n : GridPos}
    (hpos : ∀ x y, y ∈ g.neighbors x → ∀ u, dynamicStepCost g obstacles x y = some u →
      ∃ q : ℚ, u = (q : Cost) ∧ 0 < q)
    (hinv : AInv g obstacles goal start (current :: E) E st)
    (hcur : alist.find st.cost_so_far current = some c_cur)
    (hn : n ∈ g.neighbors current)
    (hdyn : dynamicStepCost g obstacles current n = some w)
    (hold : ∀ cn, alist.find st.cost_so_far n = some cn → c_cur + w < cn) :
    AInv g obstacles goal start (current :: E) E
      { frontier := st.frontier ++ [(c_cur + w + (heuristic goal n : Cost), n)],
        came_from := (n, current) :: st.came_from,
        cost_so_far := (n, c_cur + w) :: st.cost_so_far } := by
  obtain ⟨qc, hcceq, hqc0⟩ := hinv.nonneg current c_cur hcur
  obtain ⟨q, hweq, hq0⟩ := hpos current n hn w hdyn
  have hsum : c_cur + w = ((qc + q : ℚ) : Cost) := by rw [hcceq, hweq, ← WithTop.coe_add]
  have hnn : (0 : Cost) ≤ c_cur + w := by
    rw [hsum, show (0 : Cost) = ((0 : ℚ) : Cost) from rfl]
    exact_mod_cast by linarith
  have hlt_cur : c_cur < c_cur + w := by
    rw [hsum, hcceq]
    exact WithTop.coe_lt_coe.mpr (by linarith)
  have hne_start : n ≠ start := by
    intro h
    subst h
    have hcon := hold _ hinv.start0
    rw [show ((0 : ℚ) : Cost) = 0 from rfl] at hcon
    exact absurd hcon (not_lt.mpr hnn)
  have hne_cur : n ≠ current := by
    intro h
    subst h
    exact absurd (hold _ hcur) (not_lt.mpr (le_of_lt hlt_cur))
  obtain ⟨pc, hpc⟩ := hinv.exact_path current c_cur hcur
  have hpath_n : IsDynPath g obstacles start n (pc ++ [n]) (c_cur + w) :=
    dynPath_append hpc hn hdyn
  have hnE : n ∉ E := by
    intro hmem
    obtain ⟨cn, hcn, -⟩ := hinv.relaxed n hmem
    have hbound := hinv.expanded_opt n hmem cn hcn _ _ hpath_n
    exact absurd (hold cn hcn) (not_lt.mpr hbound)
  have hadj : n ∈ start :: g.adj.map Prod.snd :=
    List.mem_cons_of_mem _ (List.mem_map.mpr ⟨(current, n), mem_neighbors.mp hn, rfl⟩)
  refine { start0 := ?_, nonneg := ?_, exact_path := ?_, cf_start := ?_, cf_edge := ?_,
           dom_sync := ?_, frontier_sound := ?_, key_dom := ?_, relaxed := ?_,
           expanded_opt := ?_, open_or_closed := ?_ }
  · rw [alist_find_cons, if_neg hne_start]
    exact hinv.start0
  · intro v c hc
    rw [alist_find_cons] at hc
    by_cases hv : n = v
    · rw [if_pos hv] at hc
      obtain rfl : c_cur + w = c := Option.some.inj hc
      exact ⟨qc + q, hsum, by linarith⟩
    · rw [if_neg hv] at hc
      exact hinv.nonneg v c hc
  · intro v c hc
    rw [alist_find_cons] at hc
    by_cases hv : n = v
    · rw [if_pos hv] at hc
      obtain rfl : c_cur + w = c := Option.some.inj hc
      subst hv
      exact ⟨_, hpath_n⟩
    · rw [if_neg hv] at hc
      exact hinv.exact_path v c hc
  · rw [alist_find_cons, if_neg hne_start]
    exact hinv.cf_start
  · intro v u hvu hvs
    rw [alist_find_cons] at hvu
    by_cases hv : n = v
    · rw [if_pos hv] at hvu
      obtain rfl : current = u := Option.some.inj hvu
      subst hv
      refine ⟨w, c_cur, c_cur + w, hn, hdyn, ?_, ?_, le_refl _, hlt_cur⟩
      · rw [alist_find_cons, if_pos rfl]
      · rw [alist_find_cons, if_neg hne_cur]
        exact hcur
    · rw [if_neg hv] at hvu
      obtain ⟨w', cu, cv, hnb, hdyn', hcsfv, hcsfu, hle', hlt'⟩ :=
        hinv.cf_edge v u hvu hvs
      by_cases hu : n = u
      · subst hu
        have hltu := hold cu hcsfu
        refine ⟨w', c_cur + w, cv, hnb, hdyn', ?_, ?_, ?_, lt_trans hltu hlt'⟩
        · rw [alist_find_cons, if_neg hv]
          exact hcsfv
        · rw [alist_find_cons, if_pos rfl]
        · exact le_trans (add_le_add_right (le_of_lt hltu) w') hle'
      · refine ⟨w', cu, cv, hnb, hdyn', ?_, ?_, hle', hlt'⟩
        · rw [alist_find_cons, if_neg hv]
          exact hcsfv
        · rw [alist_find_cons, if_neg hu]
          exact hcsfu
  · intro v
    by_cases hv : n = v
    · rw [alist_find_cons, if_pos hv, alist_find_cons, if_pos hv]
      rfl
    · rw [alist_find_cons, if_neg hv, alist_find_cons, if_neg hv]
      exact hinv.dom_sync v
  · intro pri v hmem
    rcases List.mem_append.mp hmem with hmem1 | hmem2
    · obtain ⟨cv, hcv, hw1, hw2⟩ := hinv.frontier_sound pri v hmem1
      by_cases hv : n = v
      · subst hv
        have hltv := hold cv hcv
        refine ⟨c_cur + w, by rw [alist_find_cons, if_pos rfl], le_trans (le_of_lt hltv) hw1, ?_⟩
        rcases hw2 with hA | ⟨hvs, -⟩
        · exact Or.inl (le_trans (add_le_add_right (le_of_lt hltv) _) hA)
        · exact absurd hvs hne_start
      · exact ⟨cv, by rw [alist_find_cons, if_neg hv]; exact hcv, hw1, hw2⟩
    · rw [List.mem_singleton] at hmem2
      obtain ⟨h1, h2⟩ := Prod.mk.injEq .. ▸ hmem2
      subst h2
      refine ⟨c_cur + w, by rw [alist_find_cons, if_pos rfl], ?_, ?_⟩
      · rw [h1]
        exact le_add_of_nonneg_right (heuristic_cost_nonneg goal _)
      · exact Or.inl (le_of_eq h1.symm)
  · intro v hv
    rw [alist_find_cons] at hv
    by_cases hnv : n = v
    · subst hnv
      exact hadj
    · rw [if_neg hnv] at hv
      exact hinv.key_dom v hv
  · intro u hu
    obtain ⟨cu, hcu, hrel⟩ := hinv.relaxed u hu
    have hun : n ≠ u := fun h => hnE (h ▸ hu)
    refine ⟨cu, by rw [alist_find_cons, if_neg hun]; exact hcu, ?_⟩
    intro m hm w' hw'
    obtain ⟨cm, hcm, hmle⟩ := hrel m hm w' hw'
    by_cases hmn : n = m
    · subst hmn
      have hltm := hold cm hcm
      exact ⟨c_cur + w, by rw [alist_find_cons, if_pos rfl],
        le_trans (le_of_lt hltm) hmle⟩
    · exact ⟨cm, by rw [alist_find_cons, if_neg hmn]; exact hcm, hmle⟩
  · intro u hu cu hcu
    have hun : n ≠ u := fun h => hnE (h ▸ hu)
    rw [alist_find_cons, if_neg hun] at hcu
    exact hinv.expanded_opt u hu cu hcu
  · intro v cv hcv
    rw [alist_find_cons] at hcv
    by_cases hv : n = v
    · rw [if_pos hv] at hcv
      obtain rfl : c_cur + w = cv := Option.some.inj hcv
      subst hv
      refine Or.inr ⟨c_cur + w + (heuristic goal n : Cost), ?_, le_refl _⟩
      exact List.mem_append_right _ (List.mem_singleton.mpr rfl)
    · rw [if_neg hv] at hcv
      rcases hinv.open_or_closed v cv hcv with hvE | ⟨pri, hmem, hple⟩
      · exact Or.inl hvE
      · exact Or.inr ⟨pri, List.mem_append_left _ hmem, hple⟩

/-- One relaxation step of the neighbor loop preserves the invariant, keeps
the popped cell's recorded cost, only lowers recorded costs, only appends to
the frontier, and leaves the processed neighbor relaxed. -/
theorem relax_preserve {g : Graph} {obstacles : GridPos → Option Obstacle}
    {goal start current : GridPos} {E : List GridPos} {st : AState} {c_cur : Cost}
    {n : GridPos}
    (hpos : ∀ x y, y ∈ g.neighbors x → ∀ u, dynamicStepCost g obstacles x y = some u →
      ∃ q : ℚ, u = (q : Cost) ∧ 0 < q)
    (hinv : AInv g obstacles goal start (current :: E) E st)
    (hcur : alist.find st.cost_so_far current = some c_cur)
    (hn : n ∈ g.neighbors current) :
    AInv g obstacles goal start (current :: E) E (astarRelax g obstacles goal current st n) ∧
    alist.find (astarRelax g obstacles goal current st n).cost_so_far current = some c_cur ∧
    (∀ v c, alist.find st.cost_so_far v = some c →
      ∃ c', alist.find (astarRelax g obstacles goal current st n).cost_so_far v = some c' ∧
        c' ≤ c) ∧
    (∃ add, (astarRelax g obstacles goal current st n).frontier = st.frontier ++ add ∧
      add.length ≤ 1) ∧
    (∀ w, dynamicStepCost g obstacles current n = some w →
      ∃ cn, alist.find (astarRelax g obstacles goal current st n).cost_so_far n = some cn ∧
        cn ≤ c_cur + w) := by
  cases hdyn : dynamicStepCost g obstacles current n with
  | none =>
    have hst : astarRelax g obstacles goal current st n = st := by
      rw [astarRelax_dyn, hdyn]
    rw [hst]
    refine ⟨hinv, hcur, fun v c hc => ⟨c, hc, le_refl c⟩,
      ⟨[], (List.append_nil _).symm, by simp⟩, fun w hw => ?_⟩
    exact Option.noConfusion hw
  | some w =>
    have hrw2 : astarRelax g obstacles goal current st n =
        astarUpdate goal current st n (c_cur + w) := by
      rw [astarRelax_dyn, hdyn, hcur]
      rfl
    obtain ⟨qc, hcceq, hqc0⟩ := hinv.nonneg current c_cur hcur
    obtain ⟨q, hweq, hq0⟩ := hpos current n hn w hdyn
    have hlt_cur : c_cur < c_cur + w := by
      rw [hcceq, hweq, ← WithTop.coe_add]
      exact WithTop.coe_lt_coe.mpr (by linarith)
    unfold astarUpdate at hrw2
    by_cases hg : (alist.find st.cost_so_far n).elim true
        (fun old => decide (c_cur + w < old)) = true
    · rw [if_pos hg] at hrw2
      have hold : ∀ cn, alist.find st.cost_so_far n = some cn → c_cur + w < cn := by
        intro cn hcn
        rw [hcn] at hg
        exact of_decide_eq_true hg
      have hne_cur : n ≠ current := by
        intro h
        subst h
        exact absurd (hold _ hcur) (not_lt.mpr (le_of_lt hlt_cur))
      rw [hrw2]
      refine ⟨astar_written_preserve hpos hinv hcur hn hdyn hold, ?_, ?_, ?_, ?_⟩
      · rw [alist_find_cons, if_neg hne_cur]
        exact hcur
      · intro v c hc
        by_cases hv : n = v
        · subst hv
          exact ⟨c_cur + w, by rw [alist_find_cons, if_pos rfl], le_of_lt (hold c hc)⟩
        · exact ⟨c, by rw [alist_find_cons, if_neg hv]; exact hc, le_refl c⟩
      · exact ⟨[(c_cur + w + (heuristic goal n : Cost), n)], rfl, by simp⟩
      · intro w' hw'
        obtain rfl : w = w' := Option.some.inj hw'
        exact ⟨c_cur + w, by rw [alist_find_cons, if_pos rfl], le_refl _⟩
    · rw [if_neg hg] at hrw2
      cases hfn : alist.find st.cost_so_far n with
      | none =>
        rw [hfn] at hg
        exact absurd rfl hg
      | some cn =>
        have hnlt : ¬ (c_cur + w < cn) := by
          intro hlt
          rw [hfn] at hg
          exact hg (decide_eq_true hlt)
        rw [hrw2]
        refine ⟨hinv, hcur, fun v c hc => ⟨c, hc, le_refl c⟩,
          ⟨[], (List.append_nil _).symm, by simp⟩, fun w' hw' => ?_⟩
        obtain rfl : w = w' := Option.some.inj hw'
        exact ⟨cn, hfn, not_lt.mp hnlt⟩

/-- Folding the relaxation over (a sublist of) the popped cell's neighbor
list preserves the invariant, keeps the popped cell's cost, only lowers
recorded costs, appends at most one frontier entry per neighbor, and leaves
every processed neighbor relaxed against `c_cur`. -/
theorem fold_preserve {g : Graph} {obstacles : GridPos → Option Obstacle}
    {goal start current : GridPos} {E : List GridPos} {c_cur : Cost}
    (hpos : ∀ x y, y ∈ g.neighbors x → ∀ u, dynamicStepCost g obstacles x y = some u →
      ∃ q : ℚ, u = (q : Cost) ∧ 0 < q) :
    ∀ (ns : List GridPos) (st : AState), (∀ m ∈ ns, m ∈ g.neighbors current) →
    AInv g obstacles goal start (current :: E) E st →
    alist.find st.cost_so_far current = some c_cur →
    AInv g obstacles goal start (current :: E) E
      (ns.foldl (astarRelax g obstacles goal current) st) ∧
    alist.find (ns.foldl (astarRelax g obstacles goal current) st).cost_so_far current =
      some c_cur ∧
    (∀ v c, alist.find st.cost_so_far v = some c →
      ∃ c', alist.find (ns.foldl (astarRelax g obstacles goal current) st).cost_so_far v =
        some c' ∧ c' ≤ c) ∧
    (∃ add, (ns.foldl (astarRelax g obstacles goal current) st).frontier =
      st.frontier ++ add ∧ add.length ≤ ns.length) ∧
    (∀ m ∈ ns, ∀ w, dynamicStepCost g obstacles current m = some w →
      ∃ cm, alist.find (ns.foldl (astarRelax g obstacles goal current) st).cost_so_far m =
        some cm ∧ cm ≤ c_cur + w) := by
  intro ns
  induction ns with
  | nil =>
    intro st hns hinv hcur
    exact ⟨hinv, hcur, fun v c hc => ⟨c, hc, le_refl c⟩,
      ⟨[], (List.append_nil _).symm, by simp⟩, by simp⟩
  | cons m ms ih =>
    intro st hns hinv hcur
    have hm : m ∈ g.neighbors current := hns m (List.mem_cons_self _ _)
    obtain ⟨hinv1, hcur1, hmono1, ⟨a1, hf1, hl1⟩, hproc1⟩ :=
      relax_preserve hpos hinv hcur hm
    obtain ⟨hinv2, hcur2, hmono2, ⟨a2, hf2, hl2⟩, hproc2⟩ :=
      ih (astarRelax g obstacles goal current st m)
        (fun m' hm' => hns m' (List.mem_cons_of_mem _ hm')) hinv1 hcur1
    rw [List.foldl_cons]
    refine ⟨hinv2, hcur2, ?_, ?_, ?_⟩
    · intro v c hc
      obtain ⟨c1, h1, le1⟩ := hmono1 v c hc
      obtain ⟨c2, h2, le2⟩ := hmono2 v c1 h1
      exact ⟨c2, h2, le_trans le2 le1⟩
    · refine ⟨a1 ++ a2, ?_, ?_⟩
      · rw [hf2, hf1, List.append_assoc]
      · rw [List.length_append, List.length_cons]
        omega
    · intro m' hm' w hw
      rcases List.mem_cons.mp hm' with rfl | hm'tl
      · obtain ⟨cm, h1, le1⟩ := hproc1 w hw
        obtain ⟨cm2, h2, le2⟩ := hmono2 m' cm h1
        exact ⟨cm2, h2, le_trans le2 le1⟩
      · exact hproc2 m' hm'tl w hw

/-- Relaxing a neighbor of an already-relaxed cell changes nothing: the
recorded cost already undercuts the candidate, so the guard fails. -/
theorem relax_noop {g : Graph} {obstacles : GridPos → Option Obstacle}
    {goal current : GridPos} {st : AState} {cu : Cost}
    (hcu : alist.find st.cost_so_far current = some cu)
    (hrel : ∀ n ∈ g.neighbors current, ∀ w, dynamicStepCost g obstacles current n = some w →
      ∃ cn, alist.find st.cost_so_far n = some cn ∧ cn ≤ cu + w)
    {n : GridPos} (hn : n ∈ g.neighbors current) :
    astarRelax g obstacles goal current st n = st := by
  cases hdyn : dynamicStepCost g obstacles current n with
  | none => rw [astarRelax_dyn, hdyn]
  | some w =>
    obtain ⟨cn, hcn, hle⟩ := hrel n hn w hdyn
    have h2 : astarRelax g obstacles goal current st n =
        astarUpdate goal current st n (cu + w) := by
      rw [astarRelax_dyn, hdyn, hcu]
      rfl
    rw [h2]
    unfold astarUpdate
    have hfalse : (alist.find st.cost_so_far n).elim true
        (fun old => decide (cu + w < old)) = false := by
      rw [hcn]
      exact decide_eq_false (not_lt.mpr hle)
    rw [hfalse]
    rfl

/-- Folding the relaxation over the neighbors of an already-relaxed cell is
the identity. -/
theorem fold_noop {g : Graph} {obstacles : GridPos → Option Obstacle}
    {goal current : GridPos} {st : AState} {cu : Cost}
    (hcu : alist.find st.cost_so_far current = some cu)
    (hrel : ∀ n ∈ g.neighbors current, ∀ w, dynamicStepCost g obstacles current n = some w →
      ∃ cn, alist.find st.cost_so_far n = some cn ∧ cn ≤ cu + w) :
    ∀ ns : List GridPos, (∀ m ∈ ns, m ∈ g.neighbors current) →
      ns.foldl (astarRelax g obstacles goal current) st = st := by
  intro ns
  induction ns with
  | nil => intro; rfl
  | cons m ms ih =>
    intro hns
    rw [List.foldl_cons, relax_noop hcu hrel (hns m (List.mem_cons_self _ _))]
    exact ih (fun m' hm' => hns m' (List.mem_cons_of_mem _ hm'))

/-- One full iteration of the frontier loop on a popped non-goal cell
preserves the invariant: either the pop was stale (the cell was already
expanded) and only the frontier shrinks, or the cell joins the expanded list
and at most one entry per listed adjacency is pushed. -/
theorem iter_preserve {g : Graph} {obstacles : GridPos → Option Obstacle}
    {goal start : GridPos} {E : List GridPos} {st : AState} {pri_c : Cost}
    {current : GridPos} {rest : List (Cost × GridPos)}
    (hpos : ∀ x y, y ∈ g.neighbors x → ∀ u, dynamicStepCost g obstacles x y = some u →
      ∃ q : ℚ, u = (q : Cost) ∧ 0 < q)
    (hcons : ∀ x y, y ∈ g.neighbors x → ∀ w, dynamicStepCost g obstacles x y = some w →
      (heuristic goal x : Cost) ≤ w + (heuristic goal y : Cost))
    (hinv : AInv g obstacles goal start E E st)
    (hpop : popMin st.frontier = some ((pri_c, current), rest)) :
    ∃ E', AInv g obstacles goal start E' E'
        ((g.neighbors current).foldl (astarRelax g obstacles goal current)
          { st with frontier := rest }) ∧
      (E.Nodup → E'.Nodup) ∧
      ((E' = E ∧
        ((g.neighbors current).foldl (astarRelax g obstacles goal current)
          { st with frontier := rest }).frontier.length + 1 ≤ st.frontier.length) ∨
       (E' = current :: E ∧ current ∉ E ∧ current ∈ start :: g.adj.map Prod.snd ∧
        ((g.neighbors current).foldl (astarRelax g obstacles goal current)
          { st with frontier := rest }).frontier.length + 1 ≤
          st.frontier.length + g.adj.length)) := by
  have hmemf : (pri_c, current) ∈ st.frontier := popMin_mem hpop
  have hmin : ∀ e ∈ st.frontier, pri_c ≤ e.1 := popMin_min hpop
  have hperm : st.frontier.Perm ((pri_c, current) :: rest) := popMin_perm hpop
  have hrestsub : ∀ e ∈ rest, e ∈ st.frontier :=
    fun e he => hperm.symm.subset (List.mem_cons_of_mem _ he)
  have hlenf : st.frontier.length = rest.length + 1 := by
    have := hperm.length_eq
    simpa using this
  obtain ⟨c_cur, hc_cur, hweak, hstrong⟩ := hinv.frontier_sound pri_c current hmemf
  have hmemrest : ∀ pri v, (pri, v) ∈ st.frontier → v ≠ current → (pri, v) ∈ rest := by
    intro pri v hmem hne
    rcases List.mem_cons.mp (hperm.subset hmem) with heq | h
    · obtain ⟨-, h2⟩ := Prod.mk.injEq .. ▸ heq
      exact absurd h2 hne
    · exact h
  have hnlen : (g.neighbors current).length ≤ g.adj.length := by
    unfold Graph.neighbors
    rw [List.length_map]
    exact List.length_filter_le _ _
  have hcurV : current ∈ start :: g.adj.map Prod.snd :=
    hinv.key_dom current (by rw [hc_cur]; rfl)
  by_cases hE : current ∈ E
  · -- stale pop: the popped cell is already relaxed, the fold is the identity
    obtain ⟨cu, hcu, hrel⟩ := hinv.relaxed current hE
    have hfold1 : (g.neighbors current).foldl (astarRelax g obstacles goal current)
        { st with frontier := rest } = { st with frontier := rest } := by
      have hcu1 : alist.find ({ st with frontier := rest } : AState).cost_so_far current =
          some cu := hcu
      exact @fold_noop g obstacles goal current { st with frontier := rest } cu
        hcu1 hrel (g.neighbors current) (fun m hm => hm)
    refine ⟨E, ?_, fun h => h, Or.inl ⟨rfl, ?_⟩⟩
    · rw [hfold1]
      refine { start0 := hinv.start0, nonneg := hinv.nonneg, exact_path := hinv.exact_path,
               cf_start := hinv.cf_start, cf_edge := hinv.cf_edge,
               dom_sync := hinv.dom_sync, frontier_sound := ?_, key_dom := hinv.key_dom,
               relaxed := hinv.relaxed, expanded_opt := hinv.expanded_opt,
               open_or_closed := ?_ }
      · intro pri v hmem
        exact hinv.frontier_sound pri v (hrestsub _ hmem)
      · intro v cv hcv
        rcases hinv.open_or_closed v cv hcv with hvE | ⟨pri, hmem, hple⟩
        · exact Or.inl hvE
        · by_cases hvc : v = current
          · exact Or.inl (hvc ▸ hE)
          · exact Or.inr ⟨pri, hmemrest pri v hmem hvc, hple⟩
    · rw [hfold1, hlenf]
  · -- fresh pop: relax all neighbors and add the cell to the expanded list
    have hinv1 : AInv g obstacles goal start (current :: E) E
        { st with frontier := rest } := by
      refine { start0 := hinv.start0, nonneg := hinv.nonneg, exact_path := hinv.exact_path,
               cf_start := hinv.cf_start, cf_edge := hinv.cf_edge,
               dom_sync := hinv.dom_sync, frontier_sound := ?_, key_dom := hinv.key_dom,
               relaxed := hinv.relaxed, expanded_opt := hinv.expanded_opt,
               open_or_closed := ?_ }
      · intro pri v hmem
        exact hinv.frontier_sound pri v (hrestsub _ hmem)
      · intro v cv hcv
        by_cases hvc : v = current
        · exact Or.inl (hvc ▸ List.mem_cons_self _ _)
        · rcases hinv.open_or_closed v cv hcv with hvE | ⟨pri, hmem, hple⟩
          · exact Or.inl (List.mem_cons_of_mem _ hvE)
          · exact Or.inr ⟨pri, hmemrest pri v hmem hvc, hple⟩
    have hopt : ∀ p c, IsDynPath g obstacles start current p c → c_cur ≤ c := by
      intro p c hp
      rcases astar_pop_bound hcons hinv hmin hp with ⟨cz, hcz, hle⟩ | hpri
      · rw [hc_cur] at hcz
        obtain rfl : c_cur = cz := Option.some.inj hcz
        exact hle
      · rcases hstrong with hA | ⟨-, hpri0⟩
        · exact (WithTop.add_le_add_iff_right WithTop.coe_ne_top).mp (le_trans hA hpri)
        · refine le_trans (le_trans hweak (le_of_eq hpri0)) ?_
          rw [show ((0 : ℚ) : Cost) = 0 from rfl]
          exact dynPath_cost_nonneg hpos hp
    obtain ⟨hinv2, hcur2, hmono2, ⟨add, hfr, hlen⟩, hproc⟩ :=
      fold_preserve hpos (g.neighbors current) { st with frontier := rest }
        (fun m hm => hm) hinv1 hc_cur
    refine ⟨current :: E, ?_, fun h => List.nodup_cons.mpr ⟨hE, h⟩,
      Or.inr ⟨rfl, hE, hcurV, ?_⟩⟩
    · refine { start0 := hinv2.start0, nonneg := hinv2.nonneg,
               exact_path := hinv2.exact_path, cf_start := hinv2.cf_start,
               cf_edge := hinv2.cf_edge, dom_sync := hinv2.dom_sync,
               frontier_sound := hinv2.frontier_sound, key_dom := hinv2.key_dom,
               relaxed := ?_, expanded_opt := ?_,
               open_or_closed := hinv2.open_or_closed }
      · intro u hu
        rcases List.mem_cons.mp hu with rfl | huE
        · exact ⟨c_cur, hcur2, fun n hn w hw => hproc n hn w hw⟩
        · exact hinv2.relaxed u huE
      · intro u hu cu hcu p c hp
        rcases List.mem_cons.mp hu with rfl | huE
        · rw [hcur2] at hcu
          obtain rfl : c_cur = cu := Option.some.inj hcu
          exact hopt p c hp
        · exact hinv2.expanded_opt u huE cu hcu p c hp
    · rw [hfr]
      dsimp only
      rw [List.length_append]
      omega

/-- Soundness of the frontier loop: whatever state it returns satisfies the
chain properties of the two result maps, and the recorded cost of the goal —
when present — undercuts the cost of every dynamic path from the start. -/
theorem astar_loop_sound {g : Graph} {obstacles : GridPos → Option Obstacle}
    {goal start : GridPos}
    (hpos : ∀ x y, y ∈ g.neighbors x → ∀ u, dynamicStepCost g obstacles x y = some u →
      ∃ q : ℚ, u = (q : Cost) ∧ 0 < q)
    (hcons : ∀ x y, y ∈ g.neighbors x → ∀ w, dynamicStepCost g obstacles x y = some w →
      (heuristic goal x : Cost) ≤ w + (heuristic goal y : Cost)) :
    ∀ (fuel : ℕ) (st : AState) (E : List GridPos),
      AInv g obstacles goal start E E st →
      ∀ final, astarLoop g obstacles goal st fuel = some final →
      alist.find final.cost_so_far start = some ((0 : ℚ) : Cost) ∧
      (∀ v c, alist.find final.cost_so_far v = some c → ∃ q : ℚ, c = (q : Cost) ∧ 0 ≤ q) ∧
      alist.find final.came_from start = some start ∧
      (∀ v u, alist.find final.came_from v = some u → v ≠ start →
        ∃ w cu cv, v ∈ g.neighbors u ∧ dynamicStepCost g obstacles u v = some w ∧
          alist.find final.cost_so_far v = some cv ∧
          alist.find final.cost_so_far u = some cu ∧ cu + w ≤ cv ∧ cu < cv) ∧
      (∀ v, (alist.find final.came_from v).isSome = (alist.find final.cost_so_far v).isSome) ∧
      (∀ cg, alist.find final.cost_so_far goal = some cg →
        ∀ p c, IsDynPath g obstacles start goal p c → cg ≤ c) := by
  intro fuel
  induction fuel with
  | zero =>
    intro st E hinv final h
    exact absurd h (by simp [astarLoop])
  | succ fuel ih =>
    intro st E hinv final h
    rw [astarLoop] at h
    cases hpop : popMin st.frontier with
    | none =>
      rw [hpop] at h
      obtain rfl : st = final := Option.some.inj h
      have hempty : st.frontier = [] := popMin_eq_none.mp hpop
      refine ⟨hinv.start0, hinv.nonneg, hinv.cf_start, hinv.cf_edge, hinv.dom_sync, ?_⟩
      intro cg hcg p c hp
      rcases hinv.open_or_closed goal cg hcg with hgE | ⟨pri, hmem, -⟩
      · exact hinv.expanded_opt goal hgE cg hcg p c hp
      · rw [hempty] at hmem
        exact absurd hmem (List.not_mem_nil _)
    | some pc =>
      obtain ⟨⟨pri_c, current⟩, rest⟩ := pc
      rw [hpop] at h
      dsimp only at h
      by_cases hgoal : current = goal
      · rw [if_pos hgoal] at h
        obtain rfl : { st with frontier := rest } = final := Option.some.inj h
        subst hgoal
        have hmin : ∀ e ∈ st.frontier, pri_c ≤ e.1 := popMin_min hpop
        obtain ⟨cg0, hcg0, hweak, -⟩ :=
          hinv.frontier_sound pri_c current (popMin_mem hpop)
        refine ⟨hinv.start0, hinv.nonneg, hinv.cf_start, hinv.cf_edge, hinv.dom_sync, ?_⟩
        intro cg hcg p c hp
        have hcg' : alist.find st.cost_so_far current = some cg := hcg
        rw [hcg'] at hcg0
        obtain rfl : cg = cg0 := Option.some.inj hcg0
        rcases astar_pop_bound hcons hinv hmin hp with ⟨cz, hcz, hle⟩ | hpri
        · rw [hcg'] at hcz
          obtain rfl : cg = cz := Option.some.inj hcz
          exact hle
        · rw [heuristic_self, show ((0 : ℚ) : Cost) = 0 from rfl, add_zero] at hpri
          exact le_trans hweak (le_trans (hmin _ (popMin_mem hpop)) hpri)
      · rw [if_neg hgoal] at h
        obtain ⟨E', hinv', -, -⟩ := iter_preserve hpos hcons hinv hpop
        exact ih _ E' hinv' final h

/-- Termination of the frontier loop: enough fuel makes it return. Each
iteration either pops a stale entry (frontier shrinks) or expands a fresh
cell (bounded by the vertex count), so the stated measure strictly drops. -/
theorem astar_loop_terminates {g : Graph} {obstacles : GridPos → Option Obstacle}
    {goal start : GridPos}
    (hpos : ∀ x y, y ∈ g.neighbors x → ∀ u, dynamicStepCost g obstacles x y = some u →
      ∃ q : ℚ, u = (q : Cost) ∧ 0 < q)
    (hcons : ∀ x y, y ∈ g.neighbors x → ∀ w, dynamicStepCost g obstacles x y = some w →
      (heuristic goal x : Cost) ≤ w + (heuristic goal y : Cost)) :
    ∀ (n : ℕ) (st : AState) (E : List GridPos),
      AInv g obstacles goal start E E st → E.Nodup →
      st.frontier.length + (1 + g.adj.length) *
        ((start :: g.adj.map Prod.snd).dedup.length - E.length) < n →
      (astarLoop g obstacles goal st n).isSome = true := by
  intro n
  induction n with
  | zero =>
    intro st E hinv hnd hmeas
    exact absurd hmeas (by omega)
  | succ n ih =>
    intro st E hinv hnd hmeas
    rw [astarLoop]
    cases hpop : popMin st.frontier with
    | none => rfl
    | some pc =>
      obtain ⟨⟨pri_c, current⟩, rest⟩ := pc
      dsimp only
      by_cases hgoal : current = goal
      · rw [if_pos hgoal]
        rfl
      · rw [if_neg hgoal]
        obtain ⟨E', hinv', hnd', hcase⟩ := iter_preserve hpos hcons hinv hpop
        rcases hcase with ⟨rfl, hlen⟩ | ⟨rfl, hEcur, hcurV, hlen⟩
        · exact ih _ _ hinv' (hnd' hnd) (by omega)
        · have hEsub : ∀ u ∈ current :: E, u ∈ (start :: g.adj.map Prod.snd).dedup := by
            intro u hu
            rw [List.mem_dedup]
            rcases List.mem_cons.mp hu with rfl | huE
            · exact hcurV
            · obtain ⟨cu, hcu, -⟩ := hinv.relaxed u huE
              exact hinv.key_dom u (by rw [hcu]; rfl)
          have hlenE : (current :: E).length ≤
              (start :: g.adj.map Prod.snd).dedup.length :=
            ((hnd' hnd).subperm hEsub).length_le
          rw [List.length_cons] at hlenE
          have hsplit : (start :: g.adj.map Prod.snd).dedup.length - E.length =
              ((start :: g.adj.map Prod.snd).dedup.length - (E.length + 1)) + 1 := by
            omega
          rw [hsplit, mul_add_one] at hmeas
          refine ih _ (current :: E) hinv' (hnd' hnd) ?_
          rw [List.length_cons]
          omega

/-- The seeded state of `a_star_search` (line 344-352) satisfies the loop
invariant with an empty expanded list. -/
theorem astar_init_inv (g : Graph) (obstacles : GridPos → Option Obstacle)
    (goal start : GridPos) :
    AInv g obstacles goal start [] []
      { frontier := [(((0 : ℚ) : Cost), start)], came_from := [(start, start)],
        cost_so_far := [(start, ((0 : ℚ) : Cost))] } := by
  refine { start0 := alist_find_cons_self _ _ _, nonneg := ?_, exact_path := ?_,
           cf_start := alist_find_cons_self _ _ _, cf_edge := ?_, dom_sync := ?_,
           frontier_sound := ?_, key_dom := ?_, relaxed := ?_, expanded_opt := ?_,
           open_or_closed := ?_ }
  · intro v c hc
    rw [alist_find_cons] at hc
    by_cases hv : start = v
    · rw [if_pos hv] at hc
      obtain rfl : ((0 : ℚ) : Cost) = c := Option.some.inj hc
      exact ⟨0, rfl, le_refl 0⟩
    · rw [if_neg hv] at hc
      exact absurd hc (by rw [alist_find_nil]; simp)
  · intro v c hc
    rw [alist_find_cons] at hc
    by_cases hv : start = v
    · rw [if_pos hv] at hc
      obtain rfl : ((0 : ℚ) : Cost) = c := Option.some.inj hc
      subst hv
      exact ⟨[start], IsDynPath.single start⟩
    · rw [if_neg hv] at hc
      exact absurd hc (by rw [alist_find_nil]; simp)
  · intro v u hvu hvs
    rw [alist_find_cons] at hvu
    by_cases hv : start = v
    · exact absurd hv.symm hvs
    · rw [if_neg hv] at hvu
      exact absurd hvu (by rw [alist_find_nil]; simp)
  · intro v
    by_cases hv : start = v
    · rw [alist_find_cons, if_pos hv, alist_find_cons, if_pos hv]
      rfl
    · rw [alist_find_cons, if_neg hv, alist_find_cons, if_neg hv]
      rfl
  · intro pri v hmem
    rw [List.mem_singleton] at hmem
    obtain ⟨h1, h2⟩ := Prod.mk.injEq .. ▸ hmem
    subst h2
    exact ⟨((0 : ℚ) : Cost), alist_find_cons_self _ _ _, le_of_eq h1.symm,
      Or.inr ⟨rfl, h1⟩⟩
  · intro v hv
    rw [alist_find_cons] at hv
    by_cases hsv : start = v
    · exact hsv ▸ List.mem_cons_self _ _
    · rw [if_neg hsv, alist_find_nil] at hv
      exact absurd hv (by simp)
  · intro u hu
    exact absurd hu (List.not_mem_nil _)
  · intro u hu
    exact absurd hu (List.not_mem_nil _)
  · intro v cv hcv
    rw [alist_find_cons] at hcv
    by_cases hv : start = v
    · subst hv
      rw [if_pos rfl] at hcv
      obtain rfl : ((0 : ℚ) : Cost) = cv := Option.some.inj hcv
      refine Or.inr ⟨((0 : ℚ) : Cost), List.mem_singleton.mpr rfl, ?_⟩
      exact le_add_of_nonneg_right (heuristic_cost_nonneg goal start)
    · rw [if_neg hv, alist_find_nil] at hcv
      exact absurd hcv (by simp)

/-- The predecessor walk of `reconstruct_path` succeeds and yields a dynamic
path when the maps satisfy the chain invariant: each predecessor's recorded
cost is strictly smaller, so the number of recorded cells cheaper than the
current cell bounds the remaining steps. -/
theorem reconstructAux_sound {g : Graph} {obstacles : GridPos → Option Obstacle}
    {start : GridPos} {cf : List (GridPos × GridPos)} {csf : List (GridPos × Cost)}
    (hnonneg : ∀ v c, alist.find csf v = some c → ∃ q : ℚ, c = (q : Cost) ∧ 0 ≤ q)
    (hcf_edge : ∀ v u, alist.find cf v = some u → v ≠ start →
      ∃ w cu cv, v ∈ g.neighbors u ∧ dynamicStepCost g obstacles u v = some w ∧
        alist.find csf v = some cv ∧ alist.find csf u = some cu ∧ cu + w ≤ cv ∧ cu < cv)
    (hdom : ∀ v, (alist.find cf v).isSome = (alist.find csf v).isSome) :
    ∀ (fuel : ℕ) (v : GridPos) (cv : Cost) (acc : List GridPos),
      alist.find csf v = some cv →
      ((cf.map Prod.fst).dedup.filter
        (fun u => (alist.find csf u).elim false (fun cu => decide (cu < cv)))).length <
        fuel →
      ∃ tail, reconstructAux cf start fuel v acc = some ((acc ++ tail).reverse) ∧
        ∃ c, IsDynPath g obstacles start v tail.reverse c ∧ c ≤ cv := by
  intro fuel
  induction fuel with
  | zero =>
    intro v cv acc hcv hm
    exact absurd hm (by omega)
  | succ fuel ih =>
    intro v cv acc hcv hm
    by_cases hvs : v = start
    · subst hvs
      refine ⟨[v], by rw [reconstructAux, if_pos rfl], 0, ?_, ?_⟩
      · exact IsDynPath.single v
      · obtain ⟨q, rfl, hq⟩ := hnonneg v cv hcv
        rw [show (0 : Cost) = ((0 : ℚ) : Cost) from rfl]
        exact_mod_cast hq
    · have hcf : (alist.find cf v).isSome = true := by
        rw [hdom, hcv]
        rfl
      obtain ⟨u, hu⟩ := Option.isSome_iff_exists.mp hcf
      obtain ⟨w, cu, cv', hnb, hdynw, hcsfv, hcsfu, hle, hlt⟩ := hcf_edge v u hu hvs
      rw [hcv] at hcsfv
      obtain rfl : cv = cv' := Option.some.inj hcsfv
      have humem : u ∈ (cf.map Prod.fst).dedup := by
        rw [List.mem_dedup]
        have hus : (alist.find cf u).isSome = true := by
          rw [hdom, hcsfu]
          rfl
        obtain ⟨y, hy⟩ := Option.isSome_iff_exists.mp hus
        exact List.mem_map.mpr ⟨(u, y), alist_find_isSome_mem hy, rfl⟩
      have hsubl : List.Sublist
          ((cf.map Prod.fst).dedup.filter
            (fun x => (alist.find csf x).elim false (fun cx => decide (cx < cu))))
          ((cf.map Prod.fst).dedup.filter
            (fun x => (alist.find csf x).elim false (fun cx => decide (cx < cv)))) := by
        refine List.monotone_filter_right _ ?_
        intro x hx
        cases hfx : alist.find csf x with
        | none => rw [hfx] at hx; exact absurd hx (by simp)
        | some cx =>
          rw [hfx] at hx
          have hxlt : cx < cu := of_decide_eq_true hx
          exact decide_eq_true (lt_trans hxlt hlt)
      have humem2 : u ∈ (cf.map Prod.fst).dedup.filter
          (fun x => (alist.find csf x).elim false (fun cx => decide (cx < cv))) := by
        rw [List.mem_filter]
        refine ⟨humem, ?_⟩
        rw [hcsfu]
        exact decide_eq_true hlt
      have hunotin : u ∉ (cf.map Prod.fst).dedup.filter
          (fun x => (alist.find csf x).elim false (fun cx => decide (cx < cu))) := by
        rw [List.mem_filter]
        rintro ⟨-, hbad⟩
        rw [hcsfu] at hbad
        exact absurd (of_decide_eq_true hbad) (lt_irrefl cu)
      have hmlt : ((cf.map Prod.fst).dedup.filter
          (fun x => (alist.find csf x).elim false (fun cx => decide (cx < cu)))).length <
          ((cf.map Prod.fst).dedup.filter
            (fun x => (alist.find csf x).elim false (fun cx => decide (cx < cv)))).length := by
        refine lt_of_le_of_ne hsubl.length_le ?_
        intro heq
        rw [hsubl.eq_of_length heq] at hunotin
        exact hunotin humem2
      obtain ⟨tail_u, hrec, c_u, hpath_u, hcle⟩ :=
        ih u cu (acc ++ [v]) hcsfu (by omega)
      refine ⟨v :: tail_u, ?_, c_u + w, ?_, ?_⟩
      · rw [reconstructAux, if_neg hvs, hu]
        dsimp only
        rw [hrec, List.append_assoc]
        rfl
      · rw [List.reverse_cons]
        exact dynPath_append hpath_u hnb hdynw
      · exact le_trans (add_le_add_right hcle w) hle

/-- C2 (amended): when every usable edge has a strictly positive finite
dynamic step cost and the Manhattan heuristic is consistent toward the goal
over usable edges, then whenever `a_star_search` records the goal in its
result maps, `reconstruct_path` returns a dynamic path from start to goal
whose total cost is minimal among all dynamic paths from start to goal. -/
theorem c2_astar_optimal {g : Graph} {obstacles : GridPos → Option Obstacle}
    {start goal : GridPos} {fuel : ℕ}
    {cf : List (GridPos × GridPos)} {csf : List (GridPos × Cost)}
    (hpos : ∀ x y, y ∈ g.neighbors x → ∀ u, dynamicStepCost g obstacles x y = some u →
      ∃ q : ℚ, u = (q : Cost) ∧ 0 < q)
    (hcons : ∀ x y, y ∈ g.neighbors x → ∀ w, dynamicStepCost g obstacles x y = some w →
      (heuristic goal x : Cost) ≤ w + (heuristic goal y : Cost))
    (hrun : a_star_search g start goal obstacles fuel = some (cf, csf))
    (pg : GridPos) (hgoal : alist.find cf goal = some pg) :
    ∃ p c, reconstruct_path cf start goal = some p ∧
      IsDynPath g obstacles start goal p c ∧
      ∀ p' c', IsDynPath g obstacles start goal p' c' → c ≤ c' := by
  unfold a_star_search at hrun
  cases hloop : astarLoop g obstacles goal
      { frontier := [(((0 : ℚ) : Cost), start)], came_from := [(start, start)],
        cost_so_far := [(start, ((0 : ℚ) : Cost))] } fuel with
  | none =>
    rw [hloop] at hrun
    exact absurd hrun (by simp)
  | some final =>
    rw [hloop] at hrun
    simp only [Option.map_some', Option.some.injEq, Prod.mk.injEq] at hrun
    obtain ⟨h1, h2⟩ := hrun
    subst h1
    subst h2
    obtain ⟨hstart0, hnonneg, hcfstart, hcfedge, hdomsync, hgoalbound⟩ :=
      astar_loop_sound hpos hcons fuel _ [] (astar_init_inv g obstacles goal start)
        final hloop
    have hs : (alist.find final.cost_so_far goal).isSome = true := by
      rw [← hdomsync, hgoal]
      rfl
    obtain ⟨cg, hcg⟩ := Option.isSome_iff_exists.mp hs
    have hmb : ((final.came_from.map Prod.fst).dedup.filter
        (fun u => (alist.find final.cost_so_far u).elim false
          (fun cu => decide (cu < cg)))).length < final.came_from.length + 1 := by
      have h1 := List.length_filter_le
        (fun u => (alist.find final.cost_so_far u).elim false
          (fun cu => decide (cu < cg)))
        (final.came_from.map Prod.fst).dedup
      have h2 := (List.dedup_sublist (final.came_from.map Prod.fst)).length_le
      rw [List.length_map] at h2
      omega
    obtain ⟨tail, hrec, c, hpath, hcle⟩ :=
      reconstructAux_sound hnonneg hcfedge hdomsync (final.came_from.length + 1)
        goal cg [] hcg hmb
    refine ⟨tail.reverse, c, ?_, hpath, ?_⟩
    · unfold reconstruct_path
      rw [hgoal]
      rw [hrec, List.nil_append]
    · intro p' c' hp'
      exact le_trans hcle (hgoalbound cg hcg p' c' hp')

/-- Termination in the exact-rational cost model: when every usable listed
edge has a strictly positive finite dynamic step cost and the Manhattan
heuristic is consistent toward the goal over usable edges, the frontier loop
of `a_star_search` terminates with enough fuel, and `reconstruct_path` on
its result maps terminates (returns a path) for every queried goal.  This
does not settle claim C10 as stated: over exact rationals, recorded costs
descend without bound under a negative dynamic step cost and the embedded
loop diverges, whereas the program's `float` recorded costs saturate (the
strict-decrease guard eventually fails on every rounded update), so on
negative-step inputs the two cost models genuinely disagree. -/
theorem astar_terminates_of_consistent {g : Graph} {obstacles : GridPos → Option Obstacle}
    {start goal : GridPos}
    (hpos : ∀ x y, y ∈ g.neighbors x → ∀ u, dynamicStepCost g obstacles x y = some u →
      ∃ q : ℚ, u = (q : Cost) ∧ 0 < q)
    (hcons : ∀ x y, y ∈ g.neighbors x → ∀ w, dynamicStepCost g obstacles x y = some w →
      (heuristic goal x : Cost) ≤ w + (heuristic goal y : Cost)) :
    ∃ fuel cf csf, a_star_search g start goal obstacles fuel = some (cf, csf) ∧
      ∀ goal', reconstruct_path cf start goal' ≠ none := by
  have hterm := astar_loop_terminates hpos hcons
    (1 + (1 + g.adj.length) * (start :: g.adj.map Prod.snd).dedup.length + 1)
    { frontier := [(((0 : ℚ) : Cost), start)], came_from := [(start, start)],
      cost_so_far := [(start, ((0 : ℚ) : Cost))] }
    [] (astar_init_inv g obstacles goal start) List.nodup_nil
    (by
      simp only [List.length_cons, List.length_nil, Nat.sub_zero]
      omega)
  cases hloop : astarLoop g obstacles goal
      { frontier := [(((0 : ℚ) : Cost), start)], came_from := [(start, start)],
        cost_so_far := [(start, ((0 : ℚ) : Cost))] }
      (1 + (1 + g.adj.length) * (start :: g.adj.map Prod.snd).dedup.length + 1) with
  | none =>
    rw [hloop] at hterm
    exact absurd hterm (by simp)
  | some final =>
    obtain ⟨hstart0, hnonneg, hcfstart, hcfedge, hdomsync, -⟩ :=
      astar_loop_sound hpos hcons _ _ [] (astar_init_inv g obstacles goal start)
        final hloop
    refine ⟨1 + (1 + g.adj.length) * (start :: g.adj.map Prod.snd).dedup.length + 1,
      final.came_from, final.cost_so_far, ?_, ?_⟩
    · unfold a_star_search
      rw [hloop]
      rfl
    · intro goal'
      unfold reconstruct_path
      cases hg : alist.find final.came_from goal' with
      | none => simp
      | some y =>
        have hs : (alist.find final.cost_so_far goal').isSome = true := by
          rw [← hdomsync, hg]
          rfl
        obtain ⟨cv, hcv⟩ := Option.isSome_iff_exists.mp hs
        have hmb : ((final.came_from.map Prod.fst).dedup.filter
            (fun u => (alist.find final.cost_so_far u).elim false
              (fun cu => decide (cu < cv)))).length < final.came_from.length + 1 := by
          have h1 := List.length_filter_le
            (fun u => (alist.find final.cost_so_far u).elim false
              (fun cu => decide (cu < cv)))
            (final.came_from.map Prod.fst).dedup
          have h2 := (List.dedup_sublist (final.came_from.map Prod.fst)).length_le
          rw [List.length_map] at h2
          omega
        obtain ⟨tail, hrec, -⟩ :=
          reconstructAux_sound hnonneg hcfedge hdomsync (final.came_from.length + 1)
            goal' cv [] hcv hmb
        rw [hrec]
        simp

/-- Counterexample to C2 as stated: on `cexAstarGraph` all stored edge
weights are strictly positive, yet the returned path `(0,0) → (1,0)` costs 5
while the dynamic path through `(7,0)` costs 2 — the Manhattan heuristic
toward `(1,0)` overestimates through `(7,0)`, so A* commits to the direct
edge and never reopens it. -/
theorem c2_counterexample :
    (∀ e ∈ cexAstarGraph.weights, 0 < e.2) ∧
    a_star_search cexAstarGraph ((0 : ℤ), (0 : ℤ)) ((1 : ℤ), (0 : ℤ)) obstNone 10 =
      some ([(((7 : ℤ), (0 : ℤ)), ((0 : ℤ), (0 : ℤ))),
             (((1 : ℤ), (0 : ℤ)), ((0 : ℤ), (0 : ℤ))),
             (((0 : ℤ), (0 : ℤ)), ((0 : ℤ), (0 : ℤ)))],
            [(((7 : ℤ), (0 : ℤ)), ((1 : ℚ) : Cost)),
             (((1 : ℤ), (0 : ℤ)), ((5 : ℚ) : Cost)),
             (((0 : ℤ), (0 : ℤ)), ((0 : ℚ) : Cost))]) ∧
    reconstruct_path
      [(((7 : ℤ), (0 : ℤ)), ((0 : ℤ), (0 : ℤ))),
       (((1 : ℤ), (0 : ℤ)), ((0 : ℤ), (0 : ℤ))),
       (((0 : ℤ), (0 : ℤ)), ((0 : ℤ), (0 : ℤ)))]
      ((0 : ℤ), (0 : ℤ)) ((1 : ℤ), (0 : ℤ)) =
      some [((0 : ℤ), (0 : ℤ)), ((1 : ℤ), (0 : ℤ))] ∧
    IsDynPath cexAstarGraph obstNone ((0 : ℤ), (0 : ℤ)) ((1 : ℤ), (0 : ℤ))
      [((0 : ℤ), (0 : ℤ)), ((1 : ℤ), (0 : ℤ))] ((5 : ℚ) : Cost) ∧
    IsDynPath cexAstarGraph obstNone ((0 : ℤ), (0 : ℤ)) ((1 : ℤ), (0 : ℤ))
      [((0 : ℤ), (0 : ℤ)), ((7 : ℤ), (0 : ℤ)), ((1 : ℤ), (0 : ℤ))] ((2 : ℚ) : Cost) ∧
    ¬ ((5 : ℚ) : Cost) ≤ ((2 : ℚ) : Cost) := by
  refine ⟨by with_unfolding_all decide, by with_unfolding_all decide,
    by with_unfolding_all decide, ?_, ?_, by with_unfolding_all decide⟩
  · have hb : ((1 : ℤ), (0 : ℤ)) ∈ cexAstarGraph.neighbors ((0 : ℤ), (0 : ℤ)) := by
      with_unfolding_all decide
    have hw : dynamicStepCost cexAstarGraph obstNone ((0 : ℤ), (0 : ℤ)) ((1 : ℤ), (0 : ℤ)) =
        some ((5 : ℚ) : Cost) := by
      with_unfolding_all decide
    have h := IsDynPath.cons hb hw (IsDynPath.single ((1 : ℤ), (0 : ℤ)))
    have heq : ((5 : ℚ) : Cost) + 0 = ((5 : ℚ) : Cost) := add_zero _
    rw [heq] at h
    exact h
  · have hb1 : ((7 : ℤ), (0 : ℤ)) ∈ cexAstarGraph.neighbors ((0 : ℤ), (0 : ℤ)) := by
      with_unfolding_all decide
    have hw1 : dynamicStepCost cexAstarGraph obstNone ((0 : ℤ), (0 : ℤ)) ((7 : ℤ), (0 : ℤ)) =
        some ((1 : ℚ) : Cost) := by
      with_unfolding_all decide
    have hb2 : ((1 : ℤ), (0 : ℤ)) ∈ cexAstarGraph.neighbors ((7 : ℤ), (0 : ℤ)) := by
      with_unfolding_all decide
    have hw2 : dynamicStepCost cexAstarGraph obstNone ((7 : ℤ), (0 : ℤ)) ((1 : ℤ), (0 : ℤ)) =
        some ((1 : ℚ) : Cost) := by
      with_unfolding_all decide
    have h := IsDynPath.cons hb1 hw1
      (IsDynPath.cons hb2 hw2 (IsDynPath.single ((1 : ℤ), (0 : ℤ))))
    have heq : ((1 : ℚ) : Cost) + (((1 : ℚ) : Cost) + 0) = ((2 : ℚ) : Cost) := by
      with_unfolding_all decide
    rw [heq] at h
    exact h

/-- Witness for the amended C2 theorem: on the single-edge graph the search
records the goal and reconstruction returns the optimal one-step path. -/
theorem c2_astar_optimal_witness :
    ∃ p c, reconstruct_path
        [(((1 : ℤ), (0 : ℤ)), ((0 : ℤ), (0 : ℤ))),
         (((0 : ℤ), (0 : ℤ)), ((0 : ℤ), (0 : ℤ)))]
        ((0 : ℤ), (0 : ℤ)) ((1 : ℤ), (0 : ℤ)) = some p ∧
      IsDynPath witAstarGraph obstNone ((0 : ℤ), (0 : ℤ)) ((1 : ℤ), (0 : ℤ)) p c ∧
      ∀ p' c', IsDynPath witAstarGraph obstNone ((0 : ℤ), (0 : ℤ)) ((1 : ℤ), (0 : ℤ))
        p' c' → c ≤ c' := by
  have hadj : witAstarGraph.adj = [(((0 : ℤ), (0 : ℤ)), ((1 : ℤ), (0 : ℤ)))] := by
    with_unfolding_all decide
  have hpos : ∀ x y, y ∈ witAstarGraph.neighbors x → ∀ u,
      dynamicStepCost witAstarGraph obstNone x y = some u →
      ∃ q : ℚ, u = (q : Cost) ∧ 0 < q := by
    intro x y hy u hu
    have hmem := mem_neighbors.mp hy
    rw [hadj, List.mem_singleton] at hmem
    obtain ⟨h1, h2⟩ := Prod.mk.injEq .. ▸ hmem
    subst h1
    subst h2
    have hval : dynamicStepCost witAstarGraph obstNone ((0 : ℤ), (0 : ℤ))
        ((1 : ℤ), (0 : ℤ)) = some ((1 : ℚ) : Cost) := by
      with_unfolding_all decide
    rw [hval] at hu
    obtain rfl : ((1 : ℚ) : Cost) = u := Option.some.inj hu
    exact ⟨1, rfl, by norm_num⟩
  have hcons : ∀ x y, y ∈ witAstarGraph.neighbors x → ∀ w,
      dynamicStepCost witAstarGraph obstNone x y = some w →
      (heuristic ((1 : ℤ), (0 : ℤ)) x : Cost) ≤ w +
        (heuristic ((1 : ℤ), (0 : ℤ)) y : Cost) := by
    intro x y hy w hw
    have hmem := mem_neighbors.mp hy
    rw [hadj, List.mem_singleton] at hmem
    obtain ⟨h1, h2⟩ := Prod.mk.injEq .. ▸ hmem
    subst h1
    subst h2
    have hval : dynamicStepCost witAstarGraph obstNone ((0 : ℤ), (0 : ℤ))
        ((1 : ℤ), (0 : ℤ)) = some ((1 : ℚ) : Cost) := by
      with_unfolding_all decide
    rw [hval] at hw
    obtain rfl : ((1 : ℚ) : Cost) = w := Option.some.inj hw
    with_unfolding_all decide
  exact c2_astar_optimal hpos hcons
    (by with_unfolding_all decide :
      a_star_search witAstarGraph ((0 : ℤ), (0 : ℤ)) ((1 : ℤ), (0 : ℤ)) obstNone 3 =
        some ([(((1 : ℤ), (0 : ℤ)), ((0 : ℤ), (0 : ℤ))),
               (((0 : ℤ), (0 : ℤ)), ((0 : ℤ), (0 : ℤ)))],
              [(((1 : ℤ), (0 : ℤ)), ((1 : ℚ) : Cost)),
               (((0 : ℤ), (0 : ℤ)), ((0 : ℚ) : Cost))]))
    ((0 : ℤ), (0 : ℤ)) (by with_unfolding_all decide)

/-- Concrete instance of the termination theorem: on the unit-weight
two-cycle with no obstacles the search terminates and reconstruction
succeeds for every goal. -/
theorem astar_terminates_of_consistent_witness :
    ∃ fuel cf csf, a_star_search twoCycleGraph ((0 : ℤ), (0 : ℤ)) ((9 : ℤ), (9 : ℤ))
        obstNone fuel = some (cf, csf) ∧
      ∀ goal', reconstruct_path cf ((0 : ℤ), (0 : ℤ)) goal' ≠ none := by
  have hadj : twoCycleGraph.adj = [(((0 : ℤ), (0 : ℤ)), ((1 : ℤ), (0 : ℤ))),
      (((1 : ℤ), (0 : ℤ)), ((0 : ℤ), (0 : ℤ)))] := by
    with_unfolding_all decide
  have hpos : ∀ x y, y ∈ twoCycleGraph.neighbors x → ∀ u,
      dynamicStepCost twoCycleGraph obstNone x y = some u →
      ∃ q : ℚ, u = (q : Cost) ∧ 0 < q := by
    intro x y hy u hu
    have hmem := mem_neighbors.mp hy
    rw [hadj] at hmem
    rcases List.mem_cons.mp hmem with h | h
    · obtain ⟨h1, h2⟩ := Prod.mk.injEq .. ▸ h
      subst h1
      subst h2
      have hval : dynamicStepCost twoCycleGraph obstNone ((0 : ℤ), (0 : ℤ))
          ((1 : ℤ), (0 : ℤ)) = some ((1 : ℚ) : Cost) := by
        with_unfolding_all decide
      rw [hval] at hu
      obtain rfl : ((1 : ℚ) : Cost) = u := Option.some.inj hu
      exact ⟨1, rfl, by norm_num⟩
    · rw [List.mem_singleton] at h
      obtain ⟨h1, h2⟩ := Prod.mk.injEq .. ▸ h
      subst h1
      subst h2
      have hval : dynamicStepCost twoCycleGraph obstNone ((1 : ℤ), (0 : ℤ))
          ((0 : ℤ), (0 : ℤ)) = some ((1 : ℚ) : Cost) := by
        with_unfolding_all decide
      rw [hval] at hu
      obtain rfl : ((1 : ℚ) : Cost) = u := Option.some.inj hu
      exact ⟨1, rfl, by norm_num⟩
  have hcons : ∀ x y, y ∈ twoCycleGraph.neighbors x → ∀ w,
      dynamicStepCost twoCycleGraph obstNone x y = some w →
      (heuristic ((9 : ℤ), (9 : ℤ)) x : Cost) ≤ w +
        (heuristic ((9 : ℤ), (9 : ℤ)) y : Cost) := by
    intro x y hy w hw
    have hmem := mem_neighbors.mp hy
    rw [hadj] at hmem
    rcases List.mem_cons.mp hmem with h | h
    · obtain ⟨h1, h2⟩ := Prod.mk.injEq .. ▸ h
      subst h1
      subst h2
      have hval : dynamicStepCost twoCycleGraph obstNone ((0 : ℤ), (0 : ℤ))
          ((1 : ℤ), (0 : ℤ)) = some ((1 : ℚ) : Cost) := by
        with_unfolding_all decide
      rw [hval] at hw
      obtain rfl : ((1 : ℚ) : Cost) = w := Option.some.inj hw
      with_unfolding_all decide
    · rw [List.mem_singleton] at h
      obtain ⟨h1, h2⟩ := Prod.mk.injEq .. ▸ h
      subst h1
      subst h2
      have hval : dynamicStepCost twoCycleGraph obstNone ((1 : ℤ), (0 : ℤ))
          ((0 : ℤ), (0 : ℤ)) = some ((1 : ℚ) : Cost) := by
        with_unfolding_all decide
      rw [hval] at hw
      obtain rfl : ((1 : ℚ) : Cost) = w := Option.some.inj hw
      with_unfolding_all decide
  exact astar_terminates_of_consistent hpos hcons
